import Mathlib

set_option maxRecDepth 20000

/-! Shallow embedding of the amazi backend (a FastAPI timesheet service).
    Embedded source files: app/services/extraction.py, app/services/storage.py,
    app/api/routes/uploads.py, app/core/config.py, app/schemas/extraction.py.
    Third-party boundaries (the dateutil fuzzy parser, pandas table loading,
    pdfplumber page text, the OCR engine, the database) are passed in as
    explicit parameters; everything written in the repository itself is
    translated directly. -/

/-- ASCII whitespace recognised by Python str.strip and by the regex class
    backslash-s (ASCII fragment; the inputs of this service are ASCII). -/
def pyIsSpace (c : Char) : Bool :=
  c = ' ' || c = '\t' || c = '\n' || c = '\r' || c.toNat = 11 || c.toNat = 12

/-- Python str.strip on a character list: drop whitespace at both ends. -/
def stripL (l : List Char) : List Char :=
  ((l.dropWhile pyIsSpace).reverse.dropWhile pyIsSpace).reverse

/-- Python str.strip. -/
def pyStrip (s : String) : String := String.mk (stripL s.data)

/-- Python str.lower on one character (ASCII fragment, as served by this app). -/
def pyLowerCh (c : Char) : Char :=
  if h : 65 ≤ c.toNat ∧ c.toNat ≤ 90 then
    Char.ofNatAux (c.toNat + 32) (Or.inl (by omega))
  else c

/-- Python str.lower. -/
def pyLowerS (s : String) : String := String.mk (s.data.map pyLowerCh)

/-- Prefix test on character lists. -/
def isPrefL : List Char → List Char → Bool
  | [], _ => true
  | _ :: _, [] => false
  | a :: as, b :: bs => a = b && isPrefL as bs

/-- Substring test on character lists. -/
def subL (nd : List Char) : List Char → Bool
  | [] => nd.isEmpty
  | c :: rest => isPrefL nd (c :: rest) || subL nd rest

/-- Python substring containment: needle in hay. -/
def pyIn (needle hay : String) : Bool := subL needle.data hay.data

/-- ASCII decimal digit test (Python str.isdigit on one character). -/
def pyIsDigitCh (c : Char) : Bool := decide (48 ≤ c.toNat ∧ c.toNat ≤ 57)

/-- ASCII letter test (Python str.isalpha on one character). -/
def pyIsAlphaCh (c : Char) : Bool :=
  decide ((65 ≤ c.toNat ∧ c.toNat ≤ 90) ∨ (97 ≤ c.toNat ∧ c.toNat ≤ 122))

/-- ASCII alphanumeric test. -/
def pyIsAlnumCh (c : Char) : Bool := pyIsAlphaCh c || pyIsDigitCh c

/-- Python str.isdigit (ASCII fragment): non-empty and all decimal digits. -/
def pyIsDigit (s : String) : Bool := !s.data.isEmpty && s.data.all pyIsDigitCh

/-- Value of a decimal digit character. -/
def dv (c : Char) : Nat := c.toNat - 48

/-- Value of a string of decimal digits (Python int on a digit string). -/
def pyIntOfDigits (l : List Char) : Nat := l.foldl (fun a c => a * 10 + dv c) 0

/-- Decimal rendering of a natural number, little helper with fuel so that the
    kernel can evaluate it (fuel is always sufficient at fuel = n + 1). -/
def natStrGo : Nat → Nat → List Char
  | 0, _ => []
  | f + 1, n =>
    if n < 10 then [Char.ofNatAux (48 + n % 10) (Or.inl (by omega))]
    else natStrGo f (n / 10) ++ [Char.ofNatAux (48 + n % 10) (Or.inl (by omega))]

/-- Decimal rendering of a natural number as produced by Python str(i). -/
def natStr (n : Nat) : String := String.mk (natStrGo (n + 1) n)

/-- Zero-padded decimal rendering (Python %02d / %04d, used by str(date)). -/
def natStrPad (w n : Nat) : String :=
  let d := natStrGo (n + 1) n
  String.mk (List.replicate (w - d.length) '0' ++ d)

/-- Last path component of a POSIX path (pathlib PurePath.name). -/
def lastComp (l : List Char) : List Char :=
  (l.reverse.takeWhile (fun c => c ≠ '/')).reverse

/-- pathlib Path.suffix: the final extension of the last component, including
    its leading dot; empty when the dot is leading, trailing or absent. -/
def pathSuffix (s : String) : String :=
  let name := lastComp s.data
  let r := name.reverse
  let k := r.findIdx (fun c => c = '.')
  if 1 ≤ k ∧ k + 1 < r.length then String.mk ((r.take (k + 1)).reverse) else ""

/-- Python str.lstrip with a dot argument: drop all leading dots. -/
def lstripDots (s : String) : String := String.mk (s.data.dropWhile (fun c => c = '.'))

/-- Python truthy-or on strings: a or b. -/
def pyOrStr (a b : String) : String := if a = "" then b else a

/-- Python str.endswith for a single-character suffix. -/
def pyEndsWith (s : String) (c : Char) : Bool := s.data.getLast? = some c

/-- Python str.split() with no argument: split on whitespace runs, dropping
    empty pieces. -/
def pySplitWs (s : String) : List String :=
  ((s.data.splitOnP pyIsSpace).filter (fun p => !p.isEmpty)).map String.mk

/-- Python str.splitlines restricted to newline terminators (the texts this
    service feeds it are extracted page text joined with newlines). -/
def pySplitLines (s : String) : List String :=
  (s.data.splitOnP (fun c => c = '\n')).map String.mk

/-- Python string slicing s[:n]: the first n characters. -/
def pyTake (s : String) (n : Nat) : String := String.mk (s.data.take n)

/-- re.split on the character class slash-or-hyphen, keeping empty pieces. -/
def splitSlashDash (s : String) : List String :=
  (s.data.splitOnP (fun c => c = '/' || c = '-')).map String.mk

/-! IEEE-754 binary64 emulation over the rationals.  The decimal-hour branch
    of _infer_time and the lunch-break arithmetic in extract_from_csv_xlsx run
    on Python floats; every float operation is emulated exactly as
    round-to-nearest-even of the exact rational result. -/

/-- Integral power of two as a rational, for integer exponents. -/
def qpow2 (e : Int) : ℚ :=
  if 0 ≤ e then ((2 : ℚ) ^ e.toNat) else 1 / ((2 : ℚ) ^ (-e).toNat)

/-- Fuel-based base-2 logarithm (kernel-reducible; fuel n always suffices). -/
def natLog2Go : Nat → Nat → Nat
  | 0, _ => 0
  | f + 1, n => if 2 ≤ n then natLog2Go f (n / 2) + 1 else 0

/-- Floor of log2 of a positive natural number. -/
def natLog2 (n : Nat) : Nat := natLog2Go n n

/-- Floor of log2 of a positive rational: the largest e with 2 ^ e ≤ q,
    located from the bit lengths of numerator and denominator. -/
def qlog2 (q : ℚ) : Int :=
  let base : Int := (natLog2 q.num.toNat : Int) - (natLog2 q.den : Int)
  if qpow2 (base + 1) ≤ q then base + 1
  else if qpow2 base ≤ q then base
  else base - 1

/-- Round a non-negative rational to the nearest IEEE binary64 value
    (round half to even), returned as the exact rational it represents.
    All values arising in this service are in the normal range. -/
def roundDbl (q : ℚ) : ℚ :=
  if q = 0 then 0
  else
    let e := qlog2 q
    let m0 := q * qpow2 (52 - e)
    let n := m0.floor.toNat
    let r := m0 - (n : ℚ)
    let m := if r < 1 / 2 then n else if 1 / 2 < r then n + 1 else if n % 2 = 0 then n else n + 1
    (m : ℚ) * qpow2 (e - 52)

/-- Round a rational of either sign to the nearest binary64 value. -/
def roundDblZ (q : ℚ) : ℚ := if q < 0 then -(roundDbl (-q)) else roundDbl q

/-- Truncation toward zero of a rational, as Python int() on a float. -/
def ratTrunc (q : ℚ) : Int := q.num.tdiv (q.den : Int)

/-- Python float() of a digit string containing dots: defined exactly when the
    string has a single dot (otherwise float() raises), as the correctly
    rounded binary64 value of the literal. -/
def pyFloatOfDotted (s : String) : Option ℚ :=
  if (s.data.filter (fun c => c = '.')).length = 1 then
    let ip := s.data.takeWhile (fun c => c ≠ '.')
    let fp := (s.data.dropWhile (fun c => c ≠ '.')).drop 1
    some (roundDbl ((pyIntOfDigits (ip ++ fp) : ℚ) / ((10 : ℚ) ^ fp.length)))
  else none

/-! Proleptic Gregorian calendar, as datetime.date: dates are carried as
    toordinal values (day 1 = 0001-01-01, a Monday). -/

/-- Gregorian leap-year test. -/
def isLeap (y : Nat) : Bool := (y % 4 = 0 && y % 100 ≠ 0) || y % 400 = 0

/-- Days in a month of a given year. -/
def daysInMonth (y m : Nat) : Nat :=
  if m = 2 then (if isLeap y then 29 else 28)
  else if m = 4 ∨ m = 6 ∨ m = 9 ∨ m = 11 then 30
  else 31

/-- Days in the months strictly before month m of year y. -/
def daysBeforeMonth (y m : Nat) : Nat :=
  ((List.range (m - 1)).map (fun i => daysInMonth y (i + 1))).foldl (· + ·) 0

/-- datetime.date.toordinal for a (valid) year/month/day triple. -/
def gregOrd (y m d : Nat) : Nat :=
  365 * (y - 1) + (y - 1) / 4 - (y - 1) / 100 + (y - 1) / 400 + daysBeforeMonth y m + d

/-- Construct a date ordinal, validating as the datetime constructor does. -/
def mkDateValid (y m d : Nat) : Option Nat :=
  if 1 ≤ y ∧ 1 ≤ m ∧ m ≤ 12 ∧ 1 ≤ d ∧ d ≤ daysInMonth y m then some (gregOrd y m d)
  else none

/-- datetime.date.weekday (Monday = 0) from a toordinal value. -/
def pyWeekday (ord : Nat) : Nat := (ord + 6) % 7

/-- A Python datetime.time value (microseconds are never produced here). -/
structure PTime where
  hour : Nat
  minute : Nat
  second : Nat
deriving DecidableEq, Repr

/-- A Python datetime.datetime value: a date ordinal plus a time of day. -/
structure PDateTime where
  ord : Nat
  hour : Nat
  minute : Nat
  second : Nat
deriving DecidableEq, Repr

/-- datetime.time() of a datetime. -/
def PDateTime.timePart (d : PDateTime) : PTime := ⟨d.hour, d.minute, d.second⟩

/-- Ordinal of 1900-01-01, the strptime default date. -/
def ord1900 : Nat := gregOrd 1900 1 1

/-- Seconds past midnight of a time value (datetime.combine differences). -/
def PTime.toSec (t : PTime) : Int := (t.hour : Int) * 3600 + (t.minute : Int) * 60 + (t.second : Int)

/-! A small backtracking regular-expression engine.  The extraction service
    uses a fixed set of re.search patterns; this engine reproduces Python
    leftmost search with greedy, backtracking repetition.  Only group(0) is
    ever consumed by the service, so no capture bookkeeping is needed.
    Fuel bounds the backtracking depth; it is always ample for the fixed
    patterns used here. -/

inductive RE where
  | eps : RE
  | cls (p : Char → Bool) : RE
  | cat (a b : RE) : RE
  | alt (a b : RE) : RE
  | rep (lo hi : Nat) (a : RE) : RE

/-- Backtracking matcher in continuation style.  The continuation receives the
    unconsumed remainder; alternatives and repetition counts are tried in
    Python preference order (greedy, left alternative first). -/
def reM : Nat → RE → List Char → (List Char → Option (List Char)) → Option (List Char)
  | 0, _, _, _ => none
  | f + 1, re, s, k =>
    match re with
    | .eps => k s
    | .cls p =>
      match s with
      | [] => none
      | c :: rest => if p c then k rest else none
    | .cat a b => reM f a s (fun s1 => reM f b s1 k)
    | .alt a b =>
      match reM f a s k with
      | some r => some r
      | none => reM f b s k
    | .rep lo hi a =>
      if hi = 0 then (if lo = 0 then k s else none)
      else
        match reM f a s (fun s1 =>
            if s1.length < s.length then reM f (.rep (lo - 1) (hi - 1) a) s1 k else none) with
        | some r => some r
        | none => if lo = 0 then k s else none

/-- Fuel that is ample for the fixed patterns of the service. -/
def reFuel (s : List Char) : Nat := 200 * (s.length + 10)

/-- Try a match anchored at the head; yields group(0) as a character list. -/
def reAt (re : RE) (s : List Char) : Option (List Char) :=
  match reM (reFuel s) re s (fun rem => some rem) with
  | some rem => some (s.take (s.length - rem.length))
  | none => none

/-- re.search: leftmost match; yields group(0). -/
def reSearch (re : RE) : List Char → Option (List Char)
  | [] =>
    match reAt re [] with
    | some g => some g
    | none => none
  | c :: rest =>
    match reAt re (c :: rest) with
    | some g => some g
    | none => reSearch re rest

/-- Sequence a list of regex pieces. -/
def reSeq (l : List RE) : RE := l.foldr RE.cat RE.eps

/-- Digit class. -/
def reD : RE := RE.cls pyIsDigitCh

/-- Bounded digit run. -/
def reDs (lo hi : Nat) : RE := RE.rep lo hi reD

/-- Exact character. -/
def reC (c : Char) : RE := RE.cls (fun x => x = c)

/-- Case-insensitive letter (patterns are compiled with re.IGNORECASE). -/
def reCI (c : Char) : RE := RE.cls (fun x => pyLowerCh x = c)

/-- Case-insensitive literal word. -/
def reWord (w : String) : RE := reSeq (w.data.map reCI)

/-- Whitespace star (backslash-s star). -/
def reWsStar : RE := RE.rep 0 100000 (RE.cls pyIsSpace)

/-- Whitespace plus (backslash-s plus). -/
def reWsPlus : RE := RE.rep 1 100000 (RE.cls pyIsSpace)

/-- Word-character run (backslash-w, ASCII fragment). -/
def reW (lo hi : Nat) : RE := RE.rep lo hi (RE.cls (fun c => pyIsAlnumCh c || c = '_'))

/-- Optional piece. -/
def reOpt (a : RE) : RE := RE.rep 0 1 a

/-- am-or-pm alternative. -/
def reAmPm : RE := RE.alt (reWord "am") (reWord "pm")

/-- Pattern (\d{1,2}):(\d{2})(?::(\d{2}))?\s*(am|pm)? . -/
def reTimeHMS : RE :=
  reSeq [reDs 1 2, reC ':', reDs 2 2, reOpt (reSeq [reC ':', reDs 2 2]), reWsStar, reOpt reAmPm]

/-- Pattern (\d{1,2})\s*(am|pm) . -/
def reTimeHap : RE := reSeq [reDs 1 2, reWsStar, reAmPm]

/-- Pattern (\d{1,2})\.(\d{2})\s*(am|pm)? . -/
def reTimeHdM : RE := reSeq [reDs 1 2, reC '.', reDs 2 2, reWsStar, reOpt reAmPm]

/-- Pattern (\d{2})(\d{2})\s*(am|pm)? . -/
def reTime4 : RE := reSeq [reDs 2 2, reDs 2 2, reWsStar, reOpt reAmPm]

/-- Pattern (\d{1,2})(\d{2})\s*(am|pm)? . -/
def reTime3 : RE := reSeq [reDs 1 2, reDs 2 2, reWsStar, reOpt reAmPm]

/-- Pattern (\d{2})(\d{2})(?::(\d{2}))?\s*(am|pm)? . -/
def reTime4S : RE :=
  reSeq [reDs 2 2, reDs 2 2, reOpt (reSeq [reC ':', reDs 2 2]), reWsStar, reOpt reAmPm]

/-- Separator class: slash or hyphen. -/
def reSep : RE := RE.cls (fun c => c = '/' || c = '-')

/-- Pattern (\d{1,2}) sep (\d{1,2}) sep (\d{2,4}) with sep the slash-hyphen class. -/
def reDateMDY : RE := reSeq [reDs 1 2, reSep, reDs 1 2, reSep, reDs 2 4]

/-- Pattern (\d{4}) sep (\d{1,2}) sep (\d{1,2}) with sep the slash-hyphen class. -/
def reDateYMD : RE := reSeq [reDs 4 4, reSep, reDs 1 2, reSep, reDs 1 2]

/-- Pattern (\d{1,2})\s+(\w{3,9})\s+(\d{2,4}) . -/
def reDateDMonY : RE := reSeq [reDs 1 2, reWsPlus, reW 3 9, reWsPlus, reDs 2 4]

/-- Pattern (\w{3,9})\s+(\d{1,2}),?\s+(\d{2,4}) . -/
def reDateMonDY : RE := reSeq [reW 3 9, reWsPlus, reDs 1 2, reOpt (reC ','), reWsPlus, reDs 2 4]

/-! datetime.strptime emulation for the fixed formats used by the service.
    Each directive is the alternation CPython's _strptime compiles it to,
    candidates listed in regex preference order, with full backtracking
    between directives; the whole input must be consumed. -/

inductive STok where
  | lit (c : Char) : STok
  | ws : STok
  | dY : STok
  | dy : STok
  | dm : STok
  | dd : STok
  | dH : STok
  | dI : STok
  | dM : STok
  | dS : STok
  | dB : STok
  | db : STok
  | dp : STok

/-- Accumulated strptime fields. -/
structure SPA where
  y : Option Nat := none
  mo : Option Nat := none
  d : Option Nat := none
  H : Option Nat := none
  I : Option Nat := none
  M : Option Nat := none
  S : Option Nat := none
  isPM : Option Bool := none

def digit2 (a b : Char) : Nat := 10 * dv a + dv b

/-- Candidates for %H: (2[0-3]|[0-1]\d|\d). -/
def candH : List Char → List (Nat × List Char)
  | a :: b :: rest =>
    (if a = '2' ∧ pyIsDigitCh b ∧ dv b ≤ 3 then [(digit2 a b, rest)] else []) ++
    (if (a = '0' ∨ a = '1') ∧ pyIsDigitCh b then [(digit2 a b, rest)] else []) ++
    (if pyIsDigitCh a then [(dv a, b :: rest)] else [])
  | [a] => if pyIsDigitCh a then [(dv a, [])] else []
  | [] => []

/-- Candidates for %I and %m: (1[0-2]|0[1-9]|[1-9]). -/
def candI : List Char → List (Nat × List Char)
  | a :: b :: rest =>
    (if a = '1' ∧ pyIsDigitCh b ∧ dv b ≤ 2 then [(digit2 a b, rest)] else []) ++
    (if a = '0' ∧ pyIsDigitCh b ∧ 1 ≤ dv b then [(digit2 a b, rest)] else []) ++
    (if pyIsDigitCh a ∧ 1 ≤ dv a then [(dv a, b :: rest)] else [])
  | [a] => if pyIsDigitCh a ∧ 1 ≤ dv a then [(dv a, [])] else []
  | [] => []

/-- Candidates for %d: (3[01]|[12]\d|0[1-9]|[1-9]). -/
def candD : List Char → List (Nat × List Char)
  | a :: b :: rest =>
    (if a = '3' ∧ (b = '0' ∨ b = '1') then [(digit2 a b, rest)] else []) ++
    (if (a = '1' ∨ a = '2') ∧ pyIsDigitCh b then [(digit2 a b, rest)] else []) ++
    (if a = '0' ∧ pyIsDigitCh b ∧ 1 ≤ dv b then [(digit2 a b, rest)] else []) ++
    (if pyIsDigitCh a ∧ 1 ≤ dv a then [(dv a, b :: rest)] else [])
  | [a] => if pyIsDigitCh a ∧ 1 ≤ dv a then [(dv a, [])] else []
  | [] => []

/-- Candidates for %M: ([0-5]\d|\d). -/
def candM : List Char → List (Nat × List Char)
  | a :: b :: rest =>
    (if pyIsDigitCh a ∧ dv a ≤ 5 ∧ pyIsDigitCh b then [(digit2 a b, rest)] else []) ++
    (if pyIsDigitCh a then [(dv a, b :: rest)] else [])
  | [a] => if pyIsDigitCh a then [(dv a, [])] else []
  | [] => []

/-- Candidates for %S: (6[0-1]|[0-5]\d|\d). -/
def candS : List Char → List (Nat × List Char)
  | a :: b :: rest =>
    (if a = '6' ∧ (b = '0' ∨ b = '1') then [(digit2 a b, rest)] else []) ++
    (if pyIsDigitCh a ∧ dv a ≤ 5 ∧ pyIsDigitCh b then [(digit2 a b, rest)] else []) ++
    (if pyIsDigitCh a then [(dv a, b :: rest)] else [])
  | [a] => if pyIsDigitCh a then [(dv a, [])] else []
  | [] => []

/-- Candidates for %Y: four digits. -/
def candY : List Char → List (Nat × List Char)
  | a :: b :: c :: d :: rest =>
    if pyIsDigitCh a ∧ pyIsDigitCh b ∧ pyIsDigitCh c ∧ pyIsDigitCh d then
      [(pyIntOfDigits [a, b, c, d], rest)]
    else []
  | _ => []

/-- Candidates for %y: two digits, mapped to 2000s below 69, else 1900s. -/
def candYY : List Char → List (Nat × List Char)
  | a :: b :: rest =>
    if pyIsDigitCh a ∧ pyIsDigitCh b then
      [((if digit2 a b < 69 then 2000 + digit2 a b else 1900 + digit2 a b), rest)]
    else []
  | _ => []

/-- Case-insensitive word-prefix consumption. -/
def eatWordCI (w : List Char) : List Char → Option (List Char)
  | s =>
    match w with
    | [] => some s
    | c :: cs =>
      match s with
      | [] => none
      | x :: xs => if pyLowerCh x = c then eatWordCI cs xs else none

/-- Candidates for %p: AM or PM, case-insensitive. -/
def candP : List Char → List (Bool × List Char) := fun s =>
  (match eatWordCI ['a', 'm'] s with
   | some rest => [(false, rest)]
   | none => []) ++
  (match eatWordCI ['p', 'm'] s with
   | some rest => [(true, rest)]
   | none => [])

def monthNamesFull : List (Nat × String) :=
  [(1, "january"), (2, "february"), (3, "march"), (4, "april"), (5, "may"), (6, "june"),
   (7, "july"), (8, "august"), (9, "september"), (10, "october"), (11, "november"),
   (12, "december")]

def monthNamesAbbr : List (Nat × String) :=
  [(1, "jan"), (2, "feb"), (3, "mar"), (4, "apr"), (5, "may"), (6, "jun"),
   (7, "jul"), (8, "aug"), (9, "sep"), (10, "oct"), (11, "nov"), (12, "dec")]

/-- Candidates for a month-name directive over a name table. -/
def candMonth (table : List (Nat × String)) (s : List Char) : List (Nat × List Char) :=
  table.filterMap (fun p =>
    match eatWordCI p.2.data s with
    | some rest => some (p.1, rest)
    | none => none)

/-- Candidates for whitespace in a format (CPython maps a literal space to
    backslash-s plus): greedy, longest first. -/
def candWs (s : List Char) : List (Unit × List Char) :=
  let run := (s.takeWhile pyIsSpace).length
  (List.range run).reverse.map (fun j => ((), s.drop (j + 1)))

/-- All (updated-state, rest) candidates for one directive. -/
def spCands (t : STok) (s : List Char) (a : SPA) : List (SPA × List Char) :=
  match t with
  | .lit c =>
    match s with
    | [] => []
    | x :: xs => if x = c then [(a, xs)] else []
  | .ws => (candWs s).map (fun p => (a, p.2))
  | .dY => (candY s).map (fun p => ({ a with y := some p.1 }, p.2))
  | .dy => (candYY s).map (fun p => ({ a with y := some p.1 }, p.2))
  | .dm => (candI s).map (fun p => ({ a with mo := some p.1 }, p.2))
  | .dd => (candD s).map (fun p => ({ a with d := some p.1 }, p.2))
  | .dH => (candH s).map (fun p => ({ a with H := some p.1 }, p.2))
  | .dI => (candI s).map (fun p => ({ a with I := some p.1 }, p.2))
  | .dM => (candM s).map (fun p => ({ a with M := some p.1 }, p.2))
  | .dS => (candS s).map (fun p => ({ a with S := some p.1 }, p.2))
  | .dB => (candMonth monthNamesFull s).map (fun p => ({ a with mo := some p.1 }, p.2))
  | .db => (candMonth monthNamesAbbr s).map (fun p => ({ a with mo := some p.1 }, p.2))
  | .dp => (candP s).map (fun p => ({ a with isPM := some p.1 }, p.2))

/-- First success over a candidate list. -/
def firstSome {α β : Type} (l : List α) (f : α → Option β) : Option β :=
  match l with
  | [] => none
  | x :: xs =>
    match f x with
    | some r => some r
    | none => firstSome xs f

/-- Backtracking format match; the whole input must be consumed. -/
def spGo : List STok → List Char → SPA → Option SPA
  | [], s, a => if s.isEmpty then some a else none
  | t :: rest, s, a => firstSome (spCands t s a) (fun p => spGo rest p.2 p.1)

/-- datetime.strptime for a fixed token list: match, apply the %I/%p hour
    rule, validate, and build a datetime (default 1900-01-01 00:00:00). -/
def strptimeDT (toks : List STok) (s : String) : Option PDateTime :=
  match spGo toks s.data {} with
  | none => none
  | some a =>
    let year := a.y.getD 1900
    let mon := a.mo.getD 1
    let day := a.d.getD 1
    let hour :=
      match a.I with
      | some h12 =>
        (match a.isPM with
         | some true => if h12 = 12 then 12 else h12 + 12
         | _ => if h12 = 12 then 0 else h12)
      | none => a.H.getD 0
    let minute := a.M.getD 0
    let sec := a.S.getD 0
    match mkDateValid year mon day with
    | none => none
    | some o => if hour ≤ 23 ∧ minute ≤ 59 ∧ sec ≤ 59 then some ⟨o, hour, minute, sec⟩ else none

/-- Format %m/%d/%Y. -/
def fmtMDY : List STok := [.dm, .lit '/', .dd, .lit '/', .dY]

/-- Format %d/%m/%Y. -/
def fmtDMY : List STok := [.dd, .lit '/', .dm, .lit '/', .dY]

/-- Format %Y/%m/%d. -/
def fmtYMD : List STok := [.dY, .lit '/', .dm, .lit '/', .dd]

/-- Format %m/%d/%y. -/
def fmtMDy : List STok := [.dm, .lit '/', .dd, .lit '/', .dy]

/-- Format %d/%m/%y. -/
def fmtDMy : List STok := [.dd, .lit '/', .dm, .lit '/', .dy]

/-- Format %d %B %Y. -/
def fmtDBY : List STok := [.dd, .ws, .dB, .ws, .dY]

/-- Format %B %d, %Y. -/
def fmtBDY : List STok := [.dB, .ws, .dd, .lit ',', .ws, .dY]

/-- Format %d %b %Y. -/
def fmtDbY : List STok := [.dd, .ws, .db, .ws, .dY]

/-- Format %b %d, %Y. -/
def fmtbDY : List STok := [.db, .ws, .dd, .lit ',', .ws, .dY]

/-- Format %I:%M %p. -/
def fmtIMp : List STok := [.dI, .lit ':', .dM, .ws, .dp]

/-- Format %I %p. -/
def fmtIp : List STok := [.dI, .ws, .dp]

/-- Format %I.%M %p. -/
def fmtIdMp : List STok := [.dI, .lit '.', .dM, .ws, .dp]

/-- Format %I%M %p. -/
def fmtI4p : List STok := [.dI, .dM, .ws, .dp]

/-- Format %I%M:%S %p. -/
def fmtI4Sp : List STok := [.dI, .dM, .lit ':', .dS, .ws, .dp]

/-- Format %H:%M. -/
def fmtHM : List STok := [.dH, .lit ':', .dM]

/-- Format %H:%M:%S. -/
def fmtHMS : List STok := [.dH, .lit ':', .dM, .lit ':', .dS]

/-- Format %H%M. -/
def fmtH4 : List STok := [.dH, .dM]

/-- Format %H%M:%S. -/
def fmtH4S : List STok := [.dH, .dM, .lit ':', .dS]

/-- First format that parses (the for fmt in [...] try/except loops). -/
def tryFmts (fmts : List (List STok)) (s : String) : Option PDateTime :=
  firstSome fmts (fun f => strptimeDT f s)

/-- The third-party dateutil fuzzy parser, dateparser.parse(value, fuzzy=True),
    abstracted as a boundary: it maps a string to a datetime or fails. -/
def Fuzz : Type := String → Option PDateTime

/-- The boundary instantiation in which the fuzzy parser recognises nothing. -/
def fuzzNone : Fuzz := fun _ => none

/-- The rejected-value sentinel list shared by all three parsers. -/
def nullWords : List String := ["", "nan", "none", "null"]

/-- Manual date-pattern section shared by _infer_datetime and _infer_date
    (extraction.py lines 40-76 and 234-262): for each date pattern that
    re.search finds, try the slash/hyphen strptime formats when the value
    contains a slash or hyphen and splits into three parts, otherwise the
    month-name formats; failures fall through to the next pattern. -/
def idtDateSection (v : String) : Option PDateTime :=
  firstSome [reDateMDY, reDateYMD, reDateDMonY, reDateMonDY] (fun p =>
    if (reSearch p v.data).isSome then
      if pyIn "/" v || pyIn "-" v then
        (if (splitSlashDash v).length = 3 then
          tryFmts [fmtMDY, fmtDMY, fmtYMD, fmtMDy, fmtDMy] v
        else none)
      else tryFmts [fmtDBY, fmtBDY, fmtDbY, fmtbDY] v
    else none)

/-- Manual time-pattern section of _infer_datetime (lines 48-52 and 78-98):
    group(0) of the first matching pattern is fed to the am/pm strptime
    formats when it mentions am or pm, else to the 24-hour formats. -/
def idtTimeSection (v : String) : Option PDateTime :=
  firstSome [reTimeHMS, reTimeHap, reTimeHdM] (fun p =>
    match reSearch p v.data with
    | none => none
    | some g0 =>
      let ts : String := String.mk g0
      if pyIn "am" (pyLowerS ts) || pyIn "pm" (pyLowerS ts) then
        tryFmts [fmtIMp, fmtIp, fmtIdMp] ts
      else tryFmts [fmtHM, fmtHMS] ts)

/-- _infer_datetime (extraction.py lines 19-100): strip, reject null words,
    try the dateutil fuzzy parser, then the manual date and time sections. -/
def infer_datetime (fz : Fuzz) (value : String) : Option PDateTime :=
  let v := pyStrip value
  if v = "" || nullWords.contains (pyLowerS v) then none
  else
    match fz v with
    | some r => some r
    | none =>
      match idtDateSection v with
      | some r => some r
      | none => idtTimeSection v

/-- The decimal-hour branch of _infer_time (lines 112-128): on a dotted digit
    string, float() the value; in range [0, 23.999] take int hours and the
    truncated fraction-times-60 minutes, with the two overflow clamps; any
    other outcome falls through to the next branch (none here). -/
def decimalBranch (v : String) : Option PTime :=
  if pyIn "." v && pyIsDigit (String.mk (v.data.filter (fun c => c ≠ '.'))) then
    match pyFloatOfDotted v with
    | none => none
    | some dh0 =>
      let dh := dh0
      if 0 ≤ dh ∧ dh ≤ roundDbl (23999 / 1000) then
        let hours := (ratTrunc dh).toNat
        let minutes := (ratTrunc (roundDbl (roundDbl (dh - (hours : ℚ)) * 60))).toNat
        let hours2 := if minutes ≥ 60 then hours + 1 else hours
        let minutes2 := if minutes ≥ 60 then 0 else minutes
        if hours2 ≥ 24 then some ⟨23, 59, 0⟩ else some ⟨hours2, minutes2, 0⟩
      else none
  else none

/-- The four-digit HHMM branch of _infer_time (lines 131-135). -/
def fourDigitBranch (v : String) : Option PTime :=
  if v.data.length = 4 ∧ pyIsDigit v then
    let hours := pyIntOfDigits (v.data.take 2)
    let minutes := pyIntOfDigits (v.data.drop 2)
    if hours ≤ 23 ∧ minutes ≤ 59 then some ⟨hours, minutes, 0⟩ else none
  else none

/-- The three-digit HMM branch of _infer_time (lines 138-142). -/
def threeDigitBranch (v : String) : Option PTime :=
  if v.data.length = 3 ∧ pyIsDigit v then
    let hours := dv (v.data.headD '0')
    let minutes := pyIntOfDigits (v.data.drop 1)
    if hours ≤ 9 ∧ minutes ≤ 59 then some ⟨hours, minutes, 0⟩ else none
  else none

/-- The manual time-pattern tail of _infer_time (lines 149-199): for each of
    six patterns, on group(0): am/pm formats when it mentions am or pm; else
    the inline four- and three-digit reparses, then the 24-hour formats. -/
def itTimeSection (v : String) : Option PTime :=
  firstSome [reTimeHMS, reTimeHap, reTimeHdM, reTime4, reTime3, reTime4S] (fun p =>
    match reSearch p v.data with
    | none => none
    | some g0 =>
      let ts : String := String.mk g0
      if pyIn "am" (pyLowerS ts) || pyIn "pm" (pyLowerS ts) then
        (tryFmts [fmtIMp, fmtIp, fmtIdMp, fmtI4p, fmtI4Sp] ts).map PDateTime.timePart
      else
        match fourDigitBranch ts with
        | some t => some t
        | none =>
          match threeDigitBranch ts with
          | some t => some t
          | none => (tryFmts [fmtHM, fmtHMS, fmtH4, fmtH4S] ts).map PDateTime.timePart)

/-- _infer_time (extraction.py lines 103-201). -/
def infer_time (fz : Fuzz) (value : String) : Option PTime :=
  let v := pyStrip value
  if v = "" || nullWords.contains (pyLowerS v) then none
  else
    match decimalBranch v with
    | some t => some t
    | none =>
      match fourDigitBranch v with
      | some t => some t
      | none =>
        match threeDigitBranch v with
        | some t => some t
        | none =>
          match infer_datetime fz v with
          | some d => some d.timePart
          | none => itTimeSection v

/-- Weekday names recognised by _infer_date and by the extraction loop. -/
def dayNameList : List String :=
  ["monday", "tuesday", "wednesday", "thursday", "friday", "saturday", "sunday"]

/-- _infer_date (extraction.py lines 204-264): strip, reject null words,
    return none on a bare weekday name, else _infer_datetime's date, else the
    manual date-pattern section's date. -/
def infer_date (fz : Fuzz) (value : String) : Option Nat :=
  let v := pyStrip value
  if v = "" || nullWords.contains (pyLowerS v) then none
  else if dayNameList.contains (pyLowerS v) then none
  else
    match infer_datetime fz v with
    | some r => some r.ord
    | none => (idtDateSection v).map PDateTime.ord

/-! The extraction schema layer (app/schemas/extraction.py) and the tabular,
    PDF and image extraction paths (app/services/extraction.py lines 267-506).
    The pandas dataframe, the pdfplumber page texts and the OCR output are
    boundary inputs. -/

/-- Evidence attached to an extracted record. -/
structure Evidence where
  file_type : String
  source_hint : String
  raw_text : Option String
deriving DecidableEq, Repr

/-- An extraction-output employee record. -/
structure EmployeeRecord where
  name : String
  role : Option String
  email : Option String
  phone : Option String
  wage : Option ℚ
  min_hours : Option ℚ
  max_hours : Option ℚ
  evidence : Option Evidence
  confidence : ℚ
deriving DecidableEq, Repr

/-- An extraction-output shift record. -/
structure ShiftRecord where
  employee_name : Option String
  role : Option String
  date : Option Nat
  start_time : Option PTime
  end_time : Option PTime
  unpaid_break_min : Option Int
  status : Option String
  location : Option String
  evidence : Option Evidence
  confidence : ℚ
deriving DecidableEq, Repr

/-- The extraction preview returned for every upload. -/
structure ExtractionPreview where
  file_type : String
  employees : List EmployeeRecord
  shifts : List ShiftRecord
  needs_review_fields : List String
deriving DecidableEq, Repr

/-- A pandas cell value: a string, a float NaN (blank cell), a date object or
    a datetime object. -/
inductive CellV where
  | strV (s : String) : CellV
  | nanV : CellV
  | dateV (y m d : Nat) : CellV
  | dtV (y m d h mi s : Nat) : CellV
deriving DecidableEq, Repr

/-- ISO rendering of a date, as Python str(date). -/
def isoDate (y m d : Nat) : String :=
  natStrPad 4 y ++ "-" ++ natStrPad 2 m ++ "-" ++ natStrPad 2 d

/-- Python str() of a cell value (str(nan) is "nan"). -/
def cellRepr : CellV → String
  | .strV s => s
  | .nanV => "nan"
  | .dateV y m d => isoDate y m d
  | .dtV y m d h mi s =>
    isoDate y m d ++ " " ++ natStrPad 2 h ++ ":" ++ natStrPad 2 mi ++ ":" ++ natStrPad 2 s

/-- A dataframe row: cells keyed by column label. -/
def Row : Type := List (String × CellV)

/-- Series.get on a row. -/
def rowGet (r : Row) (c : String) : Option CellV :=
  (r.find? (fun p => p.1 == c)).map (fun p => p.2)

/-- str(row.get(col)) with no default: a missing key reads "None". -/
def cellStrOfGet (o : Option CellV) : String :=
  match o with
  | none => "None"
  | some cv => cellRepr cv

/-- str(row.get(col, default)). -/
def cellStrD (o : Option CellV) (dflt : String) : String :=
  match o with
  | none => dflt
  | some cv => cellRepr cv

/-- The parsed dataframe handed over by the pandas boundary. -/
structure Table where
  cols : List String
  rows : List Row

/-- The semantic columns detected from the normalized header names
    (extraction.py lines 274-292). -/
structure TabCtx where
  nameCol : Option String
  roleCol : Option String
  dateCol : Option String
  inCol : Option String
  outCol : Option String
  lunchSCol : Option String
  lunchECol : Option String
  timeInCols : List String
  timeOutCols : List String
  statusCol : Option String
  locCol : Option String

/-- Column detection by name matching, first match wins. -/
def detectCtx (cols : List String) : TabCtx where
  nameCol := cols.find? (fun c => ["name", "employee", "employee name"].contains c)
  roleCol := cols.find? (fun c => ["role", "position", "department"].contains c)
  dateCol := cols.find? (fun c => ["date", "day"].contains c)
  inCol := cols.find? (fun c =>
    ["in", "start", "clock in", "log in", "time in"].any (fun t => pyIn t c))
  outCol := cols.find? (fun c =>
    ["out", "end", "clock out", "log out", "time out"].any (fun t => pyIn t c))
  lunchSCol := cols.find? (fun c =>
    ["lunch start", "break start", "lunch begins"].any (fun t => pyIn t c))
  lunchECol := cols.find? (fun c =>
    ["lunch end", "break end", "lunch ends"].any (fun t => pyIn t c))
  timeInCols := cols.filter (fun c => pyIn "time in" c)
  timeOutCols := cols.filter (fun c => pyIn "time out" c)
  statusCol := cols.find? (fun c => ["status", "approved"].contains c)
  locCol := cols.find? (fun c => ["location", "site"].contains c)

/-- Series.nunique over the name column: distinct non-NaN values. -/
def nameNunique (rows : List Row) (c : String) : Nat :=
  (((rows.filterMap (fun r => rowGet r c)).filter (fun cv => cv ≠ CellV.nanV)).dedup).length

/-- The per-person-sheet test (line 295). -/
def isPerPerson (rows : List Row) (ctx : TabCtx) : Bool :=
  decide (0 < rows.length) &&
    (match ctx.nameCol with
     | none => true
     | some c => decide (nameNunique rows c ≤ 1))

/-- The employee name of a row (lines 301-306): the stripped name cell, with
    the literal placeholder on per-person sheets. -/
def rowName (ctx : TabCtx) (perPerson : Bool) (r : Row) : String :=
  let name :=
    match ctx.nameCol with
    | some c => pyStrip (cellStrD (rowGet r c) "")
    | none => ""
  if name = "" ∧ perPerson then "Employee" else name

/-- "xlsx" if path.endswith("x") else "csv". -/
def tabFileType (path : String) : String := if pyEndsWith path 'x' then "xlsx" else "csv"

/-- The date value of a row (lines 320-342): date and datetime cells are used
    directly; strings go through _infer_date; a bare weekday name maps to that
    weekday of the current week, anchored at the Monday of today's week. -/
def rowDateVal (fz : Fuzz) (today : Nat) (ctx : TabCtx) (r : Row) : Option Nat :=
  match ctx.dateCol with
  | none => none
  | some c =>
    match rowGet r c with
    | some (.dateV y m d) => some (gregOrd y m d)
    | some (.dtV y m d _ _ _) => some (gregOrd y m d)
    | cell =>
      let ds := cellStrOfGet cell
      match infer_date fz ds with
      | some o => some o
      | none =>
        if dayNameList.contains (pyLowerS ds) then
          some (today - pyWeekday today + dayNameList.indexOf (pyLowerS ds))
        else none

/-- str(value).strip() or None on an optional semantic column. -/
def optColVal (ctx : Option String) (r : Row) : Option String :=
  match ctx with
  | some c =>
    let v := pyStrip (cellStrD (rowGet r c) "")
    if v = "" then none else some v
  | none => none

/-- name or None. -/
def optName (name : String) : Option String := if name = "" then none else some name

/-- The joined raw-text evidence of a row, truncated to 500 characters. -/
def rawJoined (cols : List String) (r : Row) : String :=
  pyTake (String.intercalate " " (cols.map (fun c => cellStrD (rowGet r c) "nan"))) 500

/-- _infer_time over an optional semantic column: the value parsed from the
    row's cell when the column was detected, else absent (the
    "if in_col else None" pattern of lines 373-376 and 409-410). -/
def colTimeOpt (fz : Fuzz) (r : Row) : Option String → Option PTime
  | some c => infer_time fz (cellStrOfGet (rowGet r c))
  | none => none

/-- The per-row shift emission (lines 319-429): the gate on detected columns,
    then the multi-period branch, the lunch-break branch, or the standard
    branch. -/
def rowShifts (fz : Fuzz) (today : Nat) (path : String) (cols : List String) (ctx : TabCtx)
    (name : String) (idx : Nat) (r : Row) : List ShiftRecord :=
  if ctx.dateCol.isSome ∧ (ctx.inCol.isSome ∨ ctx.outCol.isSome ∨ ctx.lunchSCol.isSome ∨
      ctx.lunchECol.isSome ∨ ctx.timeInCols ≠ [] ∨ ctx.timeOutCols ≠ []) then
    let dateVal := rowDateVal fz today ctx r
    if ctx.timeInCols ≠ [] ∧ ctx.timeOutCols ≠ [] then
      ((ctx.timeInCols.zip ctx.timeOutCols).enum).filterMap (fun pr =>
        let startV := infer_time fz (cellStrOfGet (rowGet r pr.2.1))
        let endV := infer_time fz (cellStrOfGet (rowGet r pr.2.2))
        match dateVal, startV, endV with
        | some dd, some sv, some ev =>
          some ⟨optName name, optColVal ctx.roleCol r, some dd, some sv, some ev, none,
            optColVal ctx.statusCol r, optColVal ctx.locCol r,
            some ⟨tabFileType path,
              "row=" ++ natStr idx ++ " (period " ++ natStr (pr.1 + 1) ++ ")",
              some (rawJoined cols r)⟩, 7 / 10⟩
        | _, _, _ => none)
    else if ctx.lunchSCol.isSome ∧ ctx.lunchECol.isSome then
      let startV := colTimeOpt fz r ctx.inCol
      let lunchSV := infer_time fz (cellStrOfGet (rowGet r (ctx.lunchSCol.getD "")))
      let lunchEV := infer_time fz (cellStrOfGet (rowGet r (ctx.lunchECol.getD "")))
      let endV := colTimeOpt fz r ctx.outCol
      if dateVal.isSome ∧ (startV.isSome ∨ endV.isSome) then
        let totalHours : Option ℚ :=
          match startV, endV, lunchSV, lunchEV with
          | some sv, some ev, some lsv, some lev =>
            let morning := roundDblZ (((lsv.toSec - sv.toSec : Int) : ℚ) / 3600)
            let afternoon := roundDblZ (((ev.toSec - lev.toSec : Int) : ℚ) / 3600)
            some (roundDblZ (morning + afternoon))
          | _, _, _, _ => none
        let ubm : Option Int :=
          match totalHours with
          | some th => if th ≠ 0 then some (ratTrunc (roundDblZ (th * 60))) else none
          | none => none
        [⟨optName name, optColVal ctx.roleCol r, dateVal, startV, endV, ubm,
          optColVal ctx.statusCol r, optColVal ctx.locCol r,
          some ⟨tabFileType path, "row=" ++ natStr idx ++ " (split shift)",
            some (rawJoined cols r)⟩, 7 / 10⟩]
      else []
    else
      let startV := colTimeOpt fz r ctx.inCol
      let endV := colTimeOpt fz r ctx.outCol
      if dateVal.isSome ∧ (startV.isSome ∨ endV.isSome) then
        [⟨optName name, optColVal ctx.roleCol r, dateVal, startV, endV, none,
          optColVal ctx.statusCol r, optColVal ctx.locCol r,
          some ⟨tabFileType path, "row=" ++ natStr idx, some (rawJoined cols r)⟩, 7 / 10⟩]
      else []
  else []

/-- The iterrows loop (lines 300-429): deduplicated employees keyed by name,
    first occurrence wins, plus the per-row shifts, in row order. -/
def extractTabGo (fz : Fuzz) (today : Nat) (path : String) (cols : List String) (ctx : TabCtx)
    (perPerson : Bool) : List Row → Nat → List String → List EmployeeRecord × List ShiftRecord
  | [], _, _ => ([], [])
  | r :: rs, idx, seen =>
    let name := rowName ctx perPerson r
    let isNew := name ≠ "" ∧ ¬ seen.contains name
    let rest := extractTabGo fz today path cols ctx perPerson rs (idx + 1)
      (if isNew then name :: seen else seen)
    ((if isNew then
        [⟨name, optColVal ctx.roleCol r, none, none, none, none, none,
          some ⟨tabFileType path, ctx.nameCol.getD "", some name⟩, 9 / 10⟩]
      else []) ++ rest.1,
     rowShifts fz today path cols ctx name idx r ++ rest.2)

/-- Python truthiness of an optional string (None and "" are falsy). -/
def nameTruthy : Option String → Bool
  | none => false
  | some n => n ≠ ""

/-- The core-field test of the review loop (line 433): employee name, date,
    start time and end time must all be truthy. -/
def missingCoreB (s : ShiftRecord) : Bool :=
  !(nameTruthy s.employee_name && s.date.isSome && s.start_time.isSome && s.end_time.isSome)

/-- The review flag emitted for shift index i. -/
def mkFlag (i : Nat) : String := "shift[" ++ natStr i ++ "] missing core fields"

/-- The review-flag loop (lines 431-434). -/
def needsReviewGo : Nat → List ShiftRecord → List String
  | _, [] => []
  | i, s :: rest => (if missingCoreB s then [mkFlag i] else []) ++ needsReviewGo (i + 1) rest

/-- needs_review_fields computed from the built shift list. -/
def needsReviewOf (shifts : List ShiftRecord) : List String := needsReviewGo 0 shifts

/-- extract_from_csv_xlsx (lines 267-441), over the table delivered by the
    pandas boundary: normalize headers, detect columns, run the row loop and
    flag incomplete shifts. -/
def extract_from_csv_xlsx (fz : Fuzz) (today : Nat) (path : String) (tbl : Table) :
    ExtractionPreview :=
  let cols := tbl.cols.map (fun c => pyLowerS (pyStrip c))
  let rows : List Row := tbl.rows.map (fun r => r.map (fun p => (pyLowerS (pyStrip p.1), p.2)))
  let ctx := detectCtx cols
  let perPerson := isPerPerson rows ctx
  let pair := extractTabGo fz today path cols ctx perPerson rows 0 []
  ⟨tabFileType path, pair.1, pair.2, needsReviewOf pair.2⟩

/-- The time-bearing-line test shared by the PDF and image paths. -/
def timeTokenLine (ln : String) : Bool :=
  [":", "am", "pm", "–", "-"].any (fun t => pyIn t (pyLowerS ln))

/-- The candidate-name-line test shared by the PDF and image paths. -/
def nameLikeLine (ln : String) : Bool :=
  ln.data.any pyIsAlphaCh && decide ((pySplitWs ln).length ≤ 3)

/-- extract_from_pdf (lines 444-476): per page, stripped non-blank lines are
    classified; time-bearing lines that _infer_datetime parses become
    evidence-only shifts with a review flag; short alphabetic lines become
    low-confidence employee candidates. -/
def pdfPageGo (fz : Fuzz) : List String → Nat →
    List EmployeeRecord × List ShiftRecord × List String
  | [], _ => ([], [], [])
  | pg :: rest, n =>
    let lines := ((pySplitLines pg).map pyStrip).filter (fun l => l ≠ "")
    let here := lines.foldr (fun ln acc =>
      if timeTokenLine ln then
        match infer_datetime fz ln with
        | some _ =>
          (acc.1,
           (⟨none, none, none, none, none, none, none, none,
             some ⟨"pdf", "page " ++ natStr n, some ln⟩, 3 / 10⟩ : ShiftRecord) :: acc.2.1,
           ("pdf_line page " ++ natStr n ++ ": '" ++ pyTake ln 40 ++ "'") :: acc.2.2)
        | none => acc
      else
        if nameLikeLine ln then
          ((⟨ln, none, none, none, none, none, none,
            some ⟨"pdf", "page " ++ natStr n, some ln⟩, 2 / 10⟩ : EmployeeRecord) :: acc.1,
           acc.2.1, acc.2.2)
        else acc) ([], [], [])
    let tail := pdfPageGo fz rest (n + 1)
    (here.1 ++ tail.1, here.2.1 ++ tail.2.1, here.2.2 ++ tail.2.2)

/-- extract_from_pdf over the page texts delivered by the pdfplumber boundary. -/
def extract_from_pdf (fz : Fuzz) (pages : List String) : ExtractionPreview :=
  let triple := pdfPageGo fz pages 1
  ⟨"pdf", triple.1, triple.2.1, triple.2.2⟩

/-- The image OCR line loop (lines 490-503) on recognised text. -/
def imageProcess (text : String) : ExtractionPreview :=
  let lines := ((pySplitLines text).map pyStrip).filter (fun l => l ≠ "")
  let pair := lines.foldr (fun ln acc =>
    if timeTokenLine ln then
      (acc.1, ("image_line_time: " ++ pyTake ln 40) :: acc.2)
    else
      if nameLikeLine ln then
        ((⟨ln, none, none, none, none, none, none,
          some ⟨"image", "ocr", some ln⟩, 2 / 10⟩ : EmployeeRecord) :: acc.1, acc.2)
      else acc) ([], [])
  if pair.1.isEmpty then ⟨"image", pair.1, [], pair.2 ++ ["image_ocr_low_signal"]⟩
  else ⟨"image", pair.1, [], pair.2⟩

/-- The boundary inputs of one extraction run: the fuzzy parser, the wall
    clock, the parsed table, the PDF page texts, and the OCR backend (its
    availability and its outcome, an exception being modelled as error). -/
structure ExtractBnd where
  fz : Fuzz
  today : Nat
  tbl : Table
  pdfPages : List String
  ocrAvailable : Bool
  ocrText : Except Unit String

/-- extract_preview (lines 479-506): dispatch on the lowercased path suffix;
    non-tabular, non-PDF files go to OCR when available, any OCR failure
    being swallowed into the empty image preview. -/
def extract_preview (b : ExtractBnd) (path : String) : ExtractionPreview :=
  let suffix := pyLowerS (pathSuffix path)
  if suffix = ".csv" ∨ suffix = ".tsv" then extract_from_csv_xlsx b.fz b.today path b.tbl
  else if suffix = ".xlsx" ∨ suffix = ".xls" then extract_from_csv_xlsx b.fz b.today path b.tbl
  else if suffix = ".pdf" then extract_from_pdf b.fz b.pdfPages
  else if b.ocrAvailable then
    match b.ocrText with
    | .ok text => imageProcess text
    | .error _ => ⟨"image", [], [], ["image_ocr_not_available"]⟩
  else ⟨"image", [], [], ["image_ocr_not_available"]⟩

/-! The configuration object (app/core/config.py), the storage service
    (app/services/storage.py) and the upload/confirm routes
    (app/api/routes/uploads.py).  The database is modelled as the list of
    employee rows of the organization plus the rows the request inserts; the
    uuid4 hex of the storage service is a boundary input. -/

/-- The settings fields the upload path consumes, with their literal
    defaults from config.py. -/
structure Settings where
  storage_dir : String := "/workspace/amazi/storage"
  max_upload_mb : Nat := 5
  allowed_file_types : List String := ["csv", "xlsx", "pdf", "jpg", "jpeg", "png", "heic"]

/-- save_upload_locally (storage.py lines 11-17): a uuid4-hex name keeping the
    lowercased original extension (generic name when the filename is empty),
    written under the storage directory; the resulting path is returned. -/
def save_upload_locally (st : Settings) (filename : String) (uuidHex : String) : String :=
  let ext := pyLowerS (pathSuffix (pyOrStr filename "upload"))
  st.storage_dir ++ "/" ++ uuidHex ++ ext

/-- A structured HTTPException. -/
structure HErr where
  code : Nat
  detail : String
deriving DecidableEq, Repr

/-- The TimesheetUpload row inserted by the upload route. -/
structure TimesheetUploadRow where
  id : Nat
  org_id : Nat
  file_url : String
  file_type : String
  status : String
deriving DecidableEq, Repr

/-- The ExtractionRun row inserted by the upload route; the confidence
    summary holds the employee and shift counts. -/
structure ExtractionRunRow where
  upload_id : Nat
  result_json : ExtractionPreview
  confEmployees : Nat
  confShifts : Nat
  needs_review : Bool
deriving DecidableEq, Repr

/-- Everything a successful upload produces: the response and the two rows
    committed to the database. -/
structure UploadOutcome where
  response_upload_id : Nat
  response_preview : ExtractionPreview
  uploadRow : TimesheetUploadRow
  runRow : ExtractionRunRow
deriving DecidableEq, Repr

/-- upload_timesheet (uploads.py lines 21-62): extension and size validation,
    storage, extraction, and the two inserts. -/
def upload_timesheet (st : Settings) (filename : String) (size : Nat) (uuidHex : String)
    (b : ExtractBnd) (uploadId : Nat) : Except HErr UploadOutcome :=
  let ext := lstripDots (pyLowerS (pathSuffix filename))
  if ext = "" ∨ ¬ st.allowed_file_types.contains ext then
    .error ⟨400, "Unsupported file type: " ++ ext⟩
  else if st.max_upload_mb * 1024 * 1024 < size then
    .error ⟨413, "File exceeds " ++ natStr st.max_upload_mb ++ "MB limit"⟩
  else
    let saved_path := save_upload_locally st filename uuidHex
    let preview := extract_preview b saved_path
    let uploadRow : TimesheetUploadRow := ⟨uploadId, 1, saved_path, ext, "uploaded"⟩
    let runRow : ExtractionRunRow :=
      ⟨uploadId, preview, preview.employees.length, preview.shifts.length,
       !preview.needs_review_fields.isEmpty⟩
    .ok ⟨uploadId, preview, uploadRow, runRow⟩

/-- An EmployeeInput of the confirm payload. -/
structure EmployeeInput where
  name : String
  role : Option String := none
  email : Option String := none
  phone : Option String := none
  wage : Option ℚ := none
  min_hours : Option ℚ := none
  max_hours : Option ℚ := none
deriving DecidableEq

/-- A ShiftInput of the confirm payload (employee name, date, start and end
    are required by the schema). -/
structure ShiftInput where
  employee_name : String
  role : Option String := none
  date : Nat
  start_time : PTime
  end_time : PTime
  unpaid_break_min : Option Int := none
  status : Option String := none
  location : Option String := none
deriving DecidableEq

/-- The confirm request body. -/
structure ConfirmPayload where
  employees : List EmployeeInput := []
  shifts : List ShiftInput := []

/-- An employees-table row. -/
structure EmployeeRow where
  id : Nat
  org_id : Nat
  name : String
  role : Option String := none
  email : Option String := none
  phone : Option String := none
  wage : Option ℚ := none
  min_hours : Option ℚ := none
  max_hours : Option ℚ := none
deriving DecidableEq

/-- A shifts-table row as inserted by the confirm route (no location column
    is written there). -/
structure ShiftRow where
  org_id : Nat
  employee_id : Option Nat
  role : Option String
  date : Nat
  start_time : PTime
  end_time : PTime
  unpaid_break_min : Option Int
  status : Option String
deriving DecidableEq

/-- Python dict assignment: the new binding shadows any previous one. -/
def updM (m : List (String × Nat)) (k : String) (v : Nat) : List (String × Nat) := (k, v) :: m

/-- Python dict get: the most recent binding, none when absent. -/
def lookupM (m : List (String × Nat)) (k : String) : Option Nat :=
  (m.find? (fun p => p.1 == k)).map (fun p => p.2)

/-- names = the stripped non-empty employee names of the payload (line 70). -/
def confirmNames (payload : ConfirmPayload) : List String :=
  payload.employees.filterMap (fun e =>
    let n := pyStrip e.name
    if n = "" then none else some n)

/-- The select of existing employees of the organization whose name is among
    the payload names (line 73). -/
def dbSelect (db : List EmployeeRow) (names : List String) : List EmployeeRow :=
  db.filter (fun r => r.org_id == 1 && names.contains r.name)

/-- The existing map after the database loop (lines 71-75), keyed by the
    stored employee name. -/
def existing0 (db : List EmployeeRow) (names : List String) : List (String × Nat) :=
  (dbSelect db names).foldl (fun m r => updM m r.name r.id) []

/-- State of the employee-insertion loop. -/
structure EmpSt where
  map : List (String × Nat)
  rows : List EmployeeRow
  inserted : Nat
  nextId : Nat

/-- One iteration of the employee-insertion loop (lines 78-96). -/
def empStep (st : EmpSt) (e : EmployeeInput) : EmpSt :=
  let n := pyStrip e.name
  if n ≠ "" ∧ lookupM st.map n = none then
    ⟨updM st.map n st.nextId,
     st.rows ++ [⟨st.nextId, 1, n, e.role, e.email, e.phone, e.wage, e.min_hours, e.max_hours⟩],
     st.inserted + 1, st.nextId + 1⟩
  else st

/-- Everything one confirm request produces: the inserted employee rows, the
    inserted shift rows, the response counts, and the final name map. -/
structure ConfirmResult where
  newEmployeeRows : List EmployeeRow
  employees_created : Nat
  shiftRows : List ShiftRow
  shifts_created : Nat
  finalMap : List (String × Nat)
  upload_id : Nat

/-- confirm_extraction (uploads.py lines 65-117).  Fresh employee ids are
    drawn from nextId upward (the autoincrement boundary). -/
def confirm_extraction (db : List EmployeeRow) (nextId : Nat) (upload_id : Nat)
    (payload : ConfirmPayload) : ConfirmResult :=
  let names := confirmNames payload
  let st := payload.employees.foldl empStep ⟨existing0 db names, [], 0, nextId⟩
  let shiftRows := payload.shifts.map (fun s =>
    let empId := if s.employee_name ≠ "" then lookupM st.map (pyStrip s.employee_name) else none
    (⟨1, empId, s.role, s.date, s.start_time, s.end_time, s.unpaid_break_min,
      s.status⟩ : ShiftRow))
  ⟨st.rows, st.inserted, shiftRows, shiftRows.length, st.map, upload_id⟩

/-! Supporting lemmas. -/

theorem charEqOfToNat {a b : Char} (h : a.toNat = b.toNat) : a = b :=
  Char.ext (UInt32.ext h)

theorem charNeOfToNat {a b : Char} (h : a.toNat ≠ b.toNat) : a ≠ b :=
  fun e => h (congrArg Char.toNat e)

theorem pyLowerCh_toNat (c : Char) :
    (pyLowerCh c).toNat = if 65 ≤ c.toNat ∧ c.toNat ≤ 90 then c.toNat + 32 else c.toNat := by
  unfold pyLowerCh
  by_cases h : 65 ≤ c.toNat ∧ c.toNat ≤ 90
  · rw [dif_pos h, if_pos h]
    rfl
  · rw [dif_neg h, if_neg h]

theorem pyLowerCh_idem (c : Char) : pyLowerCh (pyLowerCh c) = pyLowerCh c := by
  apply charEqOfToNat
  simp only [pyLowerCh_toNat]
  split_ifs <;> omega

theorem pyLowerS_idem (s : String) : pyLowerS (pyLowerS s) = pyLowerS s := by
  unfold pyLowerS
  rw [List.map_map]
  exact congrArg String.mk (List.map_congr_left (fun c _ => pyLowerCh_idem c))

theorem containsIff {l : List String} {a : String} : l.contains a = true ↔ a ∈ l :=
  List.elem_iff

/-- Claim C1: on POST /uploads/timesheet, an empty or disallowed lowercased
    extension fails with HTTP 400 naming the rejected extension; with an
    allowed extension, a size above max_upload_mb * 1024 * 1024 bytes fails
    with HTTP 413 naming the megabyte limit; an allowed extension at or under
    the limit passes both checks and the request succeeds. -/
theorem C1_upload_validation (st : Settings) (filename : String) (size : Nat)
    (uuidHex : String) (b : ExtractBnd) (uploadId : Nat) :
    ((lstripDots (pyLowerS (pathSuffix filename)) = "" ∨
      lstripDots (pyLowerS (pathSuffix filename)) ∉ st.allowed_file_types) →
      upload_timesheet st filename size uuidHex b uploadId =
        Except.error ⟨400,
          "Unsupported file type: " ++ lstripDots (pyLowerS (pathSuffix filename))⟩) ∧
    (lstripDots (pyLowerS (pathSuffix filename)) ≠ "" →
     lstripDots (pyLowerS (pathSuffix filename)) ∈ st.allowed_file_types →
     st.max_upload_mb * 1024 * 1024 < size →
      upload_timesheet st filename size uuidHex b uploadId =
        Except.error ⟨413, "File exceeds " ++ natStr st.max_upload_mb ++ "MB limit"⟩) ∧
    (lstripDots (pyLowerS (pathSuffix filename)) ≠ "" →
     lstripDots (pyLowerS (pathSuffix filename)) ∈ st.allowed_file_types →
     size ≤ st.max_upload_mb * 1024 * 1024 →
      ∃ r, upload_timesheet st filename size uuidHex b uploadId = Except.ok r) := by
  refine ⟨?_, ?_, ?_⟩
  · intro h
    have hc : lstripDots (pyLowerS (pathSuffix filename)) = "" ∨
        ¬ (st.allowed_file_types.contains (lstripDots (pyLowerS (pathSuffix filename))) = true) :=
      h.imp id (fun hn hcont => hn (containsIff.mp hcont))
    simp only [upload_timesheet]
    rw [if_pos hc]
  · intro h1 h2 h3
    simp only [upload_timesheet]
    rw [if_neg (fun hor => hor.elim h1 (fun hn => hn (containsIff.mpr h2))), if_pos h3]
  · intro h1 h2 h3
    simp only [upload_timesheet]
    rw [if_neg (fun hor => hor.elim h1 (fun hn => hn (containsIff.mpr h2))),
      if_neg (not_lt.mpr h3)]
    exact ⟨_, rfl⟩

/-- Witness for C1 at concrete inputs: an .exe upload is rejected with 400, an
    oversized .csv upload with 413, and a small .csv upload succeeds. -/
theorem C1_upload_validation_witness :
    (upload_timesheet {} "report.exe" 10 "u" ⟨fuzzNone, 0, ⟨[], []⟩, [], false, .error ()⟩ 1 =
      Except.error ⟨400, "Unsupported file type: exe"⟩) ∧
    (upload_timesheet {} "big.csv" 5242881 "u" ⟨fuzzNone, 0, ⟨[], []⟩, [], false, .error ()⟩ 1 =
      Except.error ⟨413, "File exceeds 5MB limit"⟩) ∧
    (∃ r, upload_timesheet {} "ok.csv" 5242880 "u"
        ⟨fuzzNone, 0, ⟨[], []⟩, [], false, .error ()⟩ 1 = Except.ok r) := by
  refine ⟨?_, ?_, ?_⟩
  · exact (C1_upload_validation {} "report.exe" 10 "u"
      ⟨fuzzNone, 0, ⟨[], []⟩, [], false, .error ()⟩ 1).1 (by decide)
  · exact (C1_upload_validation {} "big.csv" 5242881 "u"
      ⟨fuzzNone, 0, ⟨[], []⟩, [], false, .error ()⟩ 1).2.1 (by decide) (by decide) (by decide)
  · exact (C1_upload_validation {} "ok.csv" 5242880 "u"
      ⟨fuzzNone, 0, ⟨[], []⟩, [], false, .error ()⟩ 1).2.2 (by decide) (by decide) (by decide)

/-- Claim C6: for every successful upload, the persisted extraction-run row's
    confidence summary counts equal the lengths of the returned preview's
    employees and shifts lists, and its needs_review flag is true exactly when
    the preview's needs_review_fields list is non-empty. -/
theorem C6_confidence_summary (st : Settings) (filename : String) (size : Nat)
    (uuidHex : String) (b : ExtractBnd) (uploadId : Nat) (r : UploadOutcome)
    (h : upload_timesheet st filename size uuidHex b uploadId = Except.ok r) :
    r.runRow.confEmployees = r.response_preview.employees.length ∧
    r.runRow.confShifts = r.response_preview.shifts.length ∧
    (r.runRow.needs_review = true ↔ r.response_preview.needs_review_fields ≠ []) := by
  simp only [upload_timesheet] at h
  split_ifs at h
  cases h
  refine ⟨rfl, rfl, ?_⟩
  simp [List.isEmpty_iff]

/-- Witness for C6: a concrete successful upload whose persisted summary
    matches the returned preview. -/
theorem C6_confidence_summary_witness :
    upload_timesheet {} "pic.jpg" 0 "u" ⟨fuzzNone, 0, ⟨[], []⟩, [], false, .error ()⟩ 7 =
      Except.ok ⟨7, ⟨"image", [], [], ["image_ocr_not_available"]⟩,
        ⟨7, 1, "/workspace/amazi/storage/u.jpg", "jpg", "uploaded"⟩,
        ⟨7, ⟨"image", [], [], ["image_ocr_not_available"]⟩, 0, 0, true⟩⟩ ∧
    ((⟨7, ⟨"image", [], [], ["image_ocr_not_available"]⟩,
        ⟨7, 1, "/workspace/amazi/storage/u.jpg", "jpg", "uploaded"⟩,
        ⟨7, ⟨"image", [], [], ["image_ocr_not_available"]⟩, 0, 0, true⟩⟩ : UploadOutcome).runRow.confEmployees =
      (⟨7, ⟨"image", [], [], ["image_ocr_not_available"]⟩,
        ⟨7, 1, "/workspace/amazi/storage/u.jpg", "jpg", "uploaded"⟩,
        ⟨7, ⟨"image", [], [], ["image_ocr_not_available"]⟩, 0, 0, true⟩⟩ : UploadOutcome).response_preview.employees.length) := by
  refine ⟨rfl, ?_⟩
  exact (C6_confidence_summary {} "pic.jpg" 0 "u" ⟨fuzzNone, 0, ⟨[], []⟩, [], false, .error ()⟩ 7
    _ rfl).1

/-- Claim C8: for a path whose lowercased suffix is none of the tabular or PDF
    ones, an unavailable or failing OCR backend yields the preview with file
    type image, no employees, no shifts, and review flags exactly
    image_ocr_not_available; the OCR error is swallowed. -/
theorem C8_image_ocr_unavailable (b : ExtractBnd) (path : String)
    (hsfx : pyLowerS (pathSuffix path) ∉ ([".csv", ".tsv", ".xlsx", ".xls", ".pdf"] : List String))
    (hocr : b.ocrAvailable = false ∨ b.ocrText = Except.error ()) :
    extract_preview b path = ⟨"image", [], [], ["image_ocr_not_available"]⟩ := by
  simp only [List.mem_cons, List.mem_singleton, not_or] at hsfx
  obtain ⟨n1, n2, n3, n4, n5, _⟩ := hsfx
  simp only [extract_preview]
  rw [if_neg (by tauto), if_neg (by tauto), if_neg n5]
  rcases hocr with h | h
  · rw [if_neg (by simp [h])]
  · by_cases hav : b.ocrAvailable
    · rw [if_pos hav, h]
    · rw [if_neg hav]

/-- Witness for C8: a .heic upload with no OCR backend. -/
theorem C8_image_ocr_unavailable_witness :
    extract_preview ⟨fuzzNone, 0, ⟨[], []⟩, [], false, .error ()⟩ "x.heic" =
      ⟨"image", [], [], ["image_ocr_not_available"]⟩ :=
  C8_image_ocr_unavailable ⟨fuzzNone, 0, ⟨[], []⟩, [], false, .error ()⟩ "x.heic"
    (by decide) (Or.inl rfl)

theorem mapLower_dropWhile_lower (p : Char → Bool) (x : List Char) :
    (List.dropWhile p (x.map pyLowerCh)).map pyLowerCh = List.dropWhile p (x.map pyLowerCh) := by
  have hmem : ∀ c ∈ List.dropWhile p (x.map pyLowerCh), pyLowerCh c = c := by
    intro c hc
    have hx : c ∈ x.map pyLowerCh := (List.dropWhile_sublist p).subset hc
    obtain ⟨a, _, rfl⟩ := List.mem_map.mp hx
    exact pyLowerCh_idem a
  exact (List.map_congr_left hmem).trans (List.map_id _)

/-- Claim C10: the upload extension check and the recorded file_type use the
    lowercased suffix without its dot (so they are case-insensitive in the
    filename), an allowed lowercased extension is accepted with the lowercase
    form stored, and the storage service's generated name also carries the
    lowercased extension. -/
theorem C10_lowercase_extension (st : Settings) (filename : String) (size : Nat)
    (uuidHex : String) (b : ExtractBnd) (uploadId : Nat) :
    (pyLowerS (lstripDots (pyLowerS (pathSuffix filename))) =
      lstripDots (pyLowerS (pathSuffix filename))) ∧
    (lstripDots (pyLowerS (pathSuffix filename)) ≠ "" →
     lstripDots (pyLowerS (pathSuffix filename)) ∈ st.allowed_file_types →
     size ≤ st.max_upload_mb * 1024 * 1024 →
     ∃ r, upload_timesheet st filename size uuidHex b uploadId = Except.ok r ∧
       r.uploadRow.file_type = lstripDots (pyLowerS (pathSuffix filename))) ∧
    (save_upload_locally st filename uuidHex =
      st.storage_dir ++ "/" ++ uuidHex ++ pyLowerS (pathSuffix (pyOrStr filename "upload"))) ∧
    (pyLowerS (pyLowerS (pathSuffix (pyOrStr filename "upload"))) =
      pyLowerS (pathSuffix (pyOrStr filename "upload"))) := by
  refine ⟨?_, ?_, rfl, pyLowerS_idem _⟩
  · exact congrArg String.mk (mapLower_dropWhile_lower _ _)
  · intro h1 h2 h3
    simp only [upload_timesheet]
    rw [if_neg (fun hor => hor.elim h1 (fun hn => hn (containsIff.mpr h2))),
      if_neg (not_lt.mpr h3)]
    exact ⟨_, rfl, rfl⟩

/-- Witness for C10: the upper-case filename SHEET.CSV is accepted and stored
    with file_type csv. -/
theorem C10_lowercase_extension_witness :
    lstripDots (pyLowerS (pathSuffix "SHEET.CSV")) = "csv" ∧
    upload_timesheet {} "SHEET.CSV" 0 "u" ⟨fuzzNone, 0, ⟨[], []⟩, [], false, .error ()⟩ 1 =
      Except.ok ⟨1, ⟨"csv", [], [], []⟩,
        ⟨1, 1, "/workspace/amazi/storage/u.csv", "csv", "uploaded"⟩,
        ⟨1, ⟨"csv", [], [], []⟩, 0, 0, false⟩⟩ ∧
    lstripDots (pyLowerS (pathSuffix (pyLowerS "SHEET.CSV"))) =
      lstripDots (pyLowerS (pathSuffix "SHEET.CSV")) := by
  obtain ⟨r, hr, hf⟩ := (C10_lowercase_extension {} "SHEET.CSV" 0 "u"
    ⟨fuzzNone, 0, ⟨[], []⟩, [], false, .error ()⟩ 1).2.1 (by decide) (by decide) (by decide)
  exact ⟨by decide, rfl, by decide⟩

section RatEval

attribute [local semireducible] Rat.mul Rat.add Rat.sub Rat.inv Rat.ofScientific

theorem pyIsSpace_false_of_digit {c : Char} (h : pyIsDigitCh c = true) : pyIsSpace c = false := by
  simp only [pyIsDigitCh, decide_eq_true_eq] at h
  have h1 : c ≠ ' ' := charNeOfToNat (by rw [show (' ').toNat = 32 from rfl]; omega)
  have h2 : c ≠ '\t' := charNeOfToNat (by rw [show ('\t').toNat = 9 from rfl]; omega)
  have h3 : c ≠ '\n' := charNeOfToNat (by rw [show ('\n').toNat = 10 from rfl]; omega)
  have h4 : c ≠ '\r' := charNeOfToNat (by rw [show ('\r').toNat = 13 from rfl]; omega)
  simp [pyIsSpace, h1, h2, h3, h4, show c.toNat ≠ 11 by omega, show c.toNat ≠ 12 by omega]

theorem dropWhile_eq_self_of_all {p : Char → Bool} {l : List Char}
    (h : ∀ c ∈ l, p c = false) : l.dropWhile p = l := by
  cases l with
  | nil => rfl
  | cons c cs => simp [List.dropWhile_cons, h c (List.mem_cons_self c cs)]

theorem stripL_of_nonspace {l : List Char} (h : ∀ c ∈ l, pyIsSpace c = false) : stripL l = l := by
  unfold stripL
  rw [dropWhile_eq_self_of_all h,
    dropWhile_eq_self_of_all (fun c hc => h c (List.mem_reverse.mp hc)), List.reverse_reverse]

theorem pyStrip_of_digits {s : String} (h : ∀ c ∈ s.data, pyIsDigitCh c = true) :
    pyStrip s = s := by
  unfold pyStrip
  rw [stripL_of_nonspace (fun c hc => pyIsSpace_false_of_digit (h c hc))]

theorem pyLowerCh_of_digit {c : Char} (h : pyIsDigitCh c = true) : pyLowerCh c = c := by
  simp only [pyIsDigitCh, decide_eq_true_eq] at h
  unfold pyLowerCh
  rw [dif_neg (by omega)]

theorem pyLowerS_of_digits {s : String} (h : ∀ c ∈ s.data, pyIsDigitCh c = true) :
    pyLowerS s = s := by
  unfold pyLowerS
  rw [(List.map_congr_left (fun c hc => pyLowerCh_of_digit (h c hc))).trans (List.map_id _)]

theorem subL_singleton_false {c : Char} {l : List Char} (h : ∀ x ∈ l, x ≠ c) :
    subL [c] l = false := by
  induction l with
  | nil => rfl
  | cons x xs ih =>
    simp only [subL, isPrefL, Bool.or_eq_false_iff]
    exact ⟨by simp [Ne.symm (h x (List.mem_cons_self x xs))],
      ih (fun y hy => h y (List.mem_cons_of_mem x hy))⟩

theorem nullWords_not_mem {v : String} (hne : v.data ≠ [])
    (h : ∀ c ∈ v.data, pyIsDigitCh c = true) : v ∉ nullWords := by
  have h1 : v ≠ "" := fun e => hne (congrArg String.data e)
  have h2 : v ≠ "nan" := fun e => by
    have hn := h 'n' (by rw [congrArg String.data e]; exact List.mem_cons_self _ _)
    exact absurd hn (by decide)
  have h3 : v ≠ "none" := fun e => by
    have hn := h 'n' (by rw [congrArg String.data e]; exact List.mem_cons_self _ _)
    exact absurd hn (by decide)
  have h4 : v ≠ "null" := fun e => by
    have hn := h 'n' (by rw [congrArg String.data e]; exact List.mem_cons_self _ _)
    exact absurd hn (by decide)
  simp [nullWords, h1, h2, h3, h4]

theorem stripCond_false {s : String} (hne : s.data ≠ [])
    (hdig : ∀ c ∈ s.data, pyIsDigitCh c = true) :
    ¬((decide (s = "") || nullWords.contains (pyLowerS s)) = true) := by
  intro hc
  simp only [Bool.or_eq_true, decide_eq_true_eq] at hc
  rcases hc with hc | hc
  · exact hne (congrArg String.data hc)
  · rw [pyLowerS_of_digits hdig] at hc
    exact nullWords_not_mem hne hdig (containsIff.mp hc)

theorem dotNotIn_of_digits {s : String} (h : ∀ c ∈ s.data, pyIsDigitCh c = true) :
    pyIn "." s = false := by
  unfold pyIn
  exact subL_singleton_false (fun x hx =>
    charNeOfToNat (by
      have := h x hx
      simp only [pyIsDigitCh, decide_eq_true_eq] at this
      rw [show ('.').toNat = 46 from rfl]
      omega))

theorem decimalBranch_none_of_digits {s : String} (h : ∀ c ∈ s.data, pyIsDigitCh c = true) :
    decimalBranch s = none := by
  unfold decimalBranch
  rw [if_neg (by simp [dotNotIn_of_digits h])]

/-- Claim C4 evidence (the code against its own rounding comment): the decimal
    branch parses "17.500" to 17:30 and "9.000" to 09:00 as the claim states,
    but on "9.100" the truncation int((float(value) - hours) * 60) of the
    binary64 product 5.99999999999999786 yields minute 5, not the
    fractional-part-times-60 rounded minute 6; and when the third-party fuzzy
    parser rejects "25.5", the out-of-range decimal returns absent. -/
theorem C4_decimal_hours_eval (fz : Fuzz) :
    infer_time fz "17.500" = some ⟨17, 30, 0⟩ ∧
    infer_time fz "9.000" = some ⟨9, 0, 0⟩ ∧
    infer_time fz "9.100" = some ⟨9, 5, 0⟩ ∧
    (fz "25.5" = none → infer_time fz "25.5" = none) := by
  refine ⟨rfl, rfl, rfl, fun h => ?_⟩
  have hd : infer_datetime fz "25.5" = none := by
    simp only [infer_datetime]
    rw [show pyStrip "25.5" = "25.5" from rfl, h]
    rfl
  simp only [infer_time]
  rw [show pyStrip "25.5" = "25.5" from rfl, hd]
  rfl

/-- Witness for C4 at the boundary instantiation that rejects "25.5". -/
theorem C4_decimal_hours_eval_witness :
    fuzzNone "25.5" = none ∧ infer_time fuzzNone "25.5" = none :=
  ⟨rfl, (C4_decimal_hours_eval fuzzNone).2.2.2 rfl⟩

theorem pyIsDigit_true {s : String} (hne : s.data ≠ [])
    (hdig : ∀ c ∈ s.data, pyIsDigitCh c = true) : pyIsDigit s = true := by
  unfold pyIsDigit
  rw [Bool.and_eq_true]
  refine ⟨?_, List.all_eq_true.mpr hdig⟩
  simp [List.isEmpty_iff, hne]

/-- Claim C5: a string of exactly 4 digits is read as HHMM, valid only within
    hours at most 23 and minutes at most 59; exactly 3 digits as HMM with
    minutes at most 59; "0930" and "930" parse to 09:30, and "2561" (invalid
    hour) matches no repository pattern and fails once the fuzzy boundary
    rejects it. -/
theorem C5_digit_run_times (fz : Fuzz) :
    (∀ s : String, s.data.length = 4 → (∀ c ∈ s.data, pyIsDigitCh c = true) →
      pyIntOfDigits (s.data.take 2) ≤ 23 → pyIntOfDigits (s.data.drop 2) ≤ 59 →
      infer_time fz s =
        some ⟨pyIntOfDigits (s.data.take 2), pyIntOfDigits (s.data.drop 2), 0⟩) ∧
    (∀ s : String, s.data.length = 3 → (∀ c ∈ s.data, pyIsDigitCh c = true) →
      pyIntOfDigits (s.data.drop 1) ≤ 59 →
      infer_time fz s = some ⟨dv (s.data.headD '0'), pyIntOfDigits (s.data.drop 1), 0⟩) ∧
    infer_time fz "0930" = some ⟨9, 30, 0⟩ ∧
    infer_time fz "930" = some ⟨9, 30, 0⟩ ∧
    (fz "2561" = none → infer_time fz "2561" = none) := by
  refine ⟨?_, ?_, rfl, rfl, fun h => ?_⟩
  · intro s hlen hdig hh hm
    have hne : s.data ≠ [] := by
      intro e
      rw [e] at hlen
      exact absurd hlen (by decide)
    have hfour : fourDigitBranch s =
        some ⟨pyIntOfDigits (s.data.take 2), pyIntOfDigits (s.data.drop 2), 0⟩ := by
      unfold fourDigitBranch
      rw [if_pos ⟨hlen, pyIsDigit_true hne hdig⟩, if_pos ⟨hh, hm⟩]
    simp only [infer_time]
    rw [pyStrip_of_digits hdig, if_neg (stripCond_false hne hdig),
      decimalBranch_none_of_digits hdig, hfour]
  · intro s hlen hdig hm
    have hne : s.data ≠ [] := by
      intro e
      rw [e] at hlen
      exact absurd hlen (by decide)
    have hmemh : s.data.headD '0' ∈ s.data := by
      cases hl : s.data with
      | nil => exact absurd hl hne
      | cons c cs => exact List.mem_cons_self c cs
    have hpd : pyIsDigitCh (s.data.headD '0') = true := hdig _ hmemh
    have h9 : dv (s.data.headD '0') ≤ 9 := by
      simp only [pyIsDigitCh, decide_eq_true_eq] at hpd
      unfold dv
      omega
    have hfour : fourDigitBranch s = none := by
      unfold fourDigitBranch
      rw [if_neg (fun hc => absurd hc.1 (by omega))]
    have hthree : threeDigitBranch s =
        some ⟨dv (s.data.headD '0'), pyIntOfDigits (s.data.drop 1), 0⟩ := by
      unfold threeDigitBranch
      rw [if_pos ⟨hlen, pyIsDigit_true hne hdig⟩, if_pos ⟨h9, hm⟩]
    simp only [infer_time]
    rw [pyStrip_of_digits hdig, if_neg (stripCond_false hne hdig),
      decimalBranch_none_of_digits hdig, hfour, hthree]
  · have hd : infer_datetime fz "2561" = none := by
      simp only [infer_datetime]
      rw [show pyStrip "2561" = "2561" from rfl, h]
      rfl
    simp only [infer_time]
    rw [show pyStrip "2561" = "2561" from rfl, hd]
    rfl

/-- Witness for C5 at concrete inputs: "1234" through the four-digit rule,
    "815" through the three-digit rule, and "2561" under the boundary that
    rejects it. -/
theorem C5_digit_run_times_witness :
    infer_time fuzzNone "1234" = some ⟨12, 34, 0⟩ ∧
    infer_time fuzzNone "815" = some ⟨8, 15, 0⟩ ∧
    infer_time fuzzNone "2561" = none := by
  refine ⟨?_, ?_, (C5_digit_run_times fuzzNone).2.2.2.2 rfl⟩
  · exact (C5_digit_run_times fuzzNone).1 "1234" (by decide) (by decide) (by decide) (by decide)
  · exact (C5_digit_run_times fuzzNone).2.1 "815" (by decide) (by decide) (by decide)

end RatEval

section FlagThms

attribute [local semireducible] Rat.mul Rat.add Rat.sub Rat.inv Rat.ofScientific

theorem toNat_ofNatAux (n : Nat) (h : n.isValidChar) : (Char.ofNatAux n h).toNat = n := rfl

theorem pyIntOfDigits_append (xs ys : List Char) :
    pyIntOfDigits (xs ++ ys) = (ys.foldl (fun a c => a * 10 + dv c) (pyIntOfDigits xs)) := by
  unfold pyIntOfDigits
  exact List.foldl_append _ _ _ _

theorem natStrGo_parse : ∀ f n, n < f → pyIntOfDigits (natStrGo f n) = n := by
  intro f
  induction f with
  | zero => intro n h; exact absurd h (by omega)
  | succ f ih =>
    intro n h
    unfold natStrGo
    by_cases h10 : n < 10
    · rw [if_pos h10]
      unfold pyIntOfDigits
      simp only [List.foldl, dv, toNat_ofNatAux]
      omega
    · rw [if_neg h10, pyIntOfDigits_append]
      have hdiv : n / 10 < f := by
        have := Nat.div_lt_self (show 0 < n by omega) (show 1 < 10 by omega)
        omega
      simp only [List.foldl, dv, toNat_ofNatAux]
      rw [ih (n / 10) hdiv]
      omega

theorem natStr_inj {a b : Nat} (h : natStr a = natStr b) : a = b := by
  have hd : natStrGo (a + 1) a = natStrGo (b + 1) b := congrArg String.data h
  have ha := natStrGo_parse (a + 1) a (by omega)
  have hb := natStrGo_parse (b + 1) b (by omega)
  rw [hd, hb] at ha
  exact ha.symm

theorem listCancelMid {pre a b t : List Char} (h : pre ++ (a ++ t) = pre ++ (b ++ t)) :
    a = b :=
  List.append_cancel_right (List.append_cancel_left h)

theorem mkFlag_inj {i j : Nat} (h : mkFlag i = mkFlag j) : i = j := by
  unfold mkFlag at h
  have hd := congrArg String.data h
  simp only [String.data_append] at hd
  have h3 : (natStr i).data = (natStr j).data :=
    List.append_cancel_left (List.append_cancel_right hd)
  exact natStr_inj (by
    show String.mk (natStrGo (i + 1) i) = String.mk (natStrGo (j + 1) j)
    exact congrArg String.mk h3)

theorem needsReviewGo_nil (k : Nat) : needsReviewGo k [] = [] := rfl

theorem needsReviewGo_cons (k : Nat) (s : ShiftRecord) (rest : List ShiftRecord) :
    needsReviewGo k (s :: rest) =
      (if missingCoreB s = true then [mkFlag k] else []) ++ needsReviewGo (k + 1) rest := rfl

theorem needsReviewGo_mem_iff :
    ∀ (l : List ShiftRecord) (k : Nat) (x : String),
      x ∈ needsReviewGo k l ↔
        ∃ j, ∃ hj : j < l.length, missingCoreB (l.get ⟨j, hj⟩) = true ∧ x = mkFlag (k + j) := by
  intro l
  induction l with
  | nil =>
    intro k x
    simp [needsReviewGo_nil]
  | cons s rest ih =>
    intro k x
    have hsplit : x ∈ needsReviewGo k (s :: rest) ↔
        (missingCoreB s = true ∧ x = mkFlag k) ∨ x ∈ needsReviewGo (k + 1) rest := by
      rw [needsReviewGo_cons]
      by_cases hms : missingCoreB s = true
      · rw [if_pos hms]
        simp [hms]
      · rw [if_neg hms]
        simp [hms]
    rw [hsplit, ih (k + 1) x]
    constructor
    · intro hx
      rcases hx with ⟨hms, hxk⟩ | ⟨j, hj, hmj, hxj⟩
      · exact ⟨0, by simp, hms, by simpa using hxk⟩
      · refine ⟨j + 1, by simpa using hj, hmj, ?_⟩
        rw [hxj]
        congr 1
        omega
    · intro hx
      obtain ⟨j, hj, hmj, hxj⟩ := hx
      cases j with
      | zero => exact Or.inl ⟨hmj, by simpa using hxj⟩
      | succ j' =>
        refine Or.inr ⟨j', by simpa using hj, hmj, ?_⟩
        rw [hxj]
        congr 1
        omega

/-- Claim C7: in tabular extraction, the review flag built for shift index i
    is in needs_review_fields exactly when that shift is missing one of
    employee name, date, start time or end time (Python truthiness: an absent
    or empty name counts as missing). -/
theorem C7_missing_core_flags (fz : Fuzz) (today : Nat) (path : String) (tbl : Table)
    (i : Nat) (h : i < (extract_from_csv_xlsx fz today path tbl).shifts.length) :
    mkFlag i ∈ (extract_from_csv_xlsx fz today path tbl).needs_review_fields ↔
      missingCoreB ((extract_from_csv_xlsx fz today path tbl).shifts.get ⟨i, h⟩) = true := by
  have he : (extract_from_csv_xlsx fz today path tbl).needs_review_fields =
      needsReviewOf ((extract_from_csv_xlsx fz today path tbl).shifts) := rfl
  rw [he]
  unfold needsReviewOf
  rw [needsReviewGo_mem_iff]
  constructor
  · intro hx
    obtain ⟨j, hj, hmj, hxj⟩ := hx
    have hij : i = j := mkFlag_inj (by simpa using hxj)
    subst hij
    exact hmj
  · intro hm
    exact ⟨i, h, hm, by simp⟩

/-- The one-row table of the C7 witness: a parseable date and clock-in but a
    blank clock-out. -/
def c7tbl : Table :=
  ⟨["Name", "Date", "Clock In", "Clock Out"],
   [[("Name", CellV.strV "Bob"), ("Date", CellV.dateV 2025 1 6),
     ("Clock In", CellV.strV "0930"), ("Clock Out", CellV.strV "")]]⟩

/-- Witness for C7: the single emitted shift misses its end time and index 0
    is flagged. -/
theorem C7_missing_core_flags_witness :
    mkFlag 0 ∈ (extract_from_csv_xlsx fuzzNone 700000 "f.csv" c7tbl).needs_review_fields ∧
    missingCoreB ((extract_from_csv_xlsx fuzzNone 700000 "f.csv" c7tbl).shifts.get
      ⟨0, by decide⟩) = true := by
  refine ⟨?_, by decide⟩
  exact (C7_missing_core_flags fuzzNone 700000 "f.csv" c7tbl 0 (by decide)).mpr (by decide)

end FlagThms

section RowThms

attribute [local semireducible] Rat.mul Rat.add Rat.sub Rat.inv Rat.ofScientific

theorem rowDateVal_none {fz : Fuzz} {today : Nat} {ctx : TabCtx} {r : Row}
    (h : ctx.dateCol = none) : rowDateVal fz today ctx r = none := by
  unfold rowDateVal
  rw [h]

theorem colTimeOpt_none {fz : Fuzz} {r : Row} {oc : Option String} (h : oc = none) :
    colTimeOpt fz r oc = none := by
  rw [h]
  rfl

theorem dateCol_isSome_of_dateVal {fz : Fuzz} {today : Nat} {ctx : TabCtx} {r : Row}
    (h : rowDateVal fz today ctx r ≠ none) : ctx.dateCol.isSome := by
  rcases hc : ctx.dateCol with _ | c
  · exact absurd (rowDateVal_none hc) h
  · rfl

theorem inCol_isSome_of_colTime {fz : Fuzz} {r : Row} {oc : Option String}
    (h : colTimeOpt fz r oc ≠ none) : oc.isSome := by
  rcases hc : oc with _ | c
  · exact absurd (colTimeOpt_none hc) h
  · rfl

/-- Claim C3 as amended: in the multi-period branch (both "time in" and
    "time out" multi-columns detected) a shift is emitted for a row exactly
    when its date value parses and some period has BOTH its clock-in and
    clock-out parsing; in the lunch and standard branches a shift is emitted
    exactly when the date parses and at least one of clock-in/clock-out
    parses; a standard-branch row with a parseable date and clock-in but a
    failing clock-out yields exactly one shift with an absent end time, which
    is missing a core field; and in the assembled preview every shift missing
    a core field is flagged at its index. -/
theorem C3_amended (fz : Fuzz) (today : Nat) (path : String) (cols : List String)
    (ctx : TabCtx) (name : String) (idx : Nat) (r : Row) :
    (ctx.timeInCols ≠ [] ∧ ctx.timeOutCols ≠ [] →
      (rowShifts fz today path cols ctx name idx r ≠ [] ↔
        rowDateVal fz today ctx r ≠ none ∧
        ∃ p ∈ ctx.timeInCols.zip ctx.timeOutCols,
          infer_time fz (cellStrOfGet (rowGet r p.1)) ≠ none ∧
          infer_time fz (cellStrOfGet (rowGet r p.2)) ≠ none)) ∧
    (¬(ctx.timeInCols ≠ [] ∧ ctx.timeOutCols ≠ []) →
      (rowShifts fz today path cols ctx name idx r ≠ [] ↔
        rowDateVal fz today ctx r ≠ none ∧
        (colTimeOpt fz r ctx.inCol ≠ none ∨ colTimeOpt fz r ctx.outCol ≠ none))) ∧
    (∀ d t, ¬(ctx.timeInCols ≠ [] ∧ ctx.timeOutCols ≠ []) →
      ¬(ctx.lunchSCol.isSome ∧ ctx.lunchECol.isSome) →
      rowDateVal fz today ctx r = some d →
      colTimeOpt fz r ctx.inCol = some t →
      colTimeOpt fz r ctx.outCol = none →
      rowShifts fz today path cols ctx name idx r =
        [⟨optName name, optColVal ctx.roleCol r, some d, some t, none, none,
          optColVal ctx.statusCol r, optColVal ctx.locCol r,
          some ⟨tabFileType path, "row=" ++ natStr idx, some (rawJoined cols r)⟩, 7 / 10⟩] ∧
      missingCoreB ⟨optName name, optColVal ctx.roleCol r, some d, some t, none, none,
          optColVal ctx.statusCol r, optColVal ctx.locCol r,
          some ⟨tabFileType path, "row=" ++ natStr idx, some (rawJoined cols r)⟩, 7 / 10⟩ =
        true) ∧
    (∀ (tbl : Table) (i : Nat) (h : i < (extract_from_csv_xlsx fz today path tbl).shifts.length),
      missingCoreB ((extract_from_csv_xlsx fz today path tbl).shifts.get ⟨i, h⟩) = true →
      mkFlag i ∈ (extract_from_csv_xlsx fz today path tbl).needs_review_fields) := by
  refine ⟨?_, ?_, ?_, ?_⟩
  · rintro ⟨hti, hto⟩
    by_cases hdc : ctx.dateCol.isSome
    · have hgate : ctx.dateCol.isSome ∧ (ctx.inCol.isSome ∨ ctx.outCol.isSome ∨
          ctx.lunchSCol.isSome ∨ ctx.lunchECol.isSome ∨ ctx.timeInCols ≠ [] ∨
          ctx.timeOutCols ≠ []) :=
        ⟨hdc, Or.inr (Or.inr (Or.inr (Or.inr (Or.inl hti))))⟩
      simp only [rowShifts]
      rw [if_pos hgate, if_pos ⟨hti, hto⟩, Ne, List.filterMap_eq_nil_iff]
      constructor
      · intro hne
        rcases not_forall.mp hne with ⟨x, hx⟩
        rcases Classical.not_imp.mp hx with ⟨hmem, hfx⟩
        rcases hd : rowDateVal fz today ctx r with _ | d
        · exact absurd (by simp [hd]) hfx
        · refine ⟨by simp [hd], x.2, ?_, ?_, ?_⟩
          · have h2 := List.mem_map_of_mem Prod.snd hmem
            rwa [List.enum_map_snd] at h2
          · rcases ht1 : infer_time fz (cellStrOfGet (rowGet r x.2.1)) with _ | v1
            · exact absurd (by simp [hd, ht1]) hfx
            · simp [ht1]
          · rcases ht2 : infer_time fz (cellStrOfGet (rowGet r x.2.2)) with _ | v2
            · exact absurd (by simp [hd, ht2]) hfx
            · simp [ht2]
      · rintro ⟨hdne, p, hp, h1, h2⟩
        intro hall
        rcases Option.ne_none_iff_exists'.mp hdne with ⟨d, hd⟩
        rcases Option.ne_none_iff_exists'.mp h1 with ⟨v1, ht1⟩
        rcases Option.ne_none_iff_exists'.mp h2 with ⟨v2, ht2⟩
        rw [← List.enum_map_snd (ctx.timeInCols.zip ctx.timeOutCols)] at hp
        rcases List.mem_map.mp hp with ⟨x, hx, hxp⟩
        have := hall x hx
        rw [← hxp] at ht1 ht2
        simp [hd, ht1, ht2] at this
    · have hdn : ctx.dateCol = none := Option.not_isSome_iff_eq_none.mp hdc
      simp only [rowShifts]
      rw [if_neg (fun hg => hdc hg.1)]
      constructor
      · intro hne
        exact absurd rfl hne
      · rintro ⟨hdne, _⟩
        exact absurd (rowDateVal_none hdn) hdne
  · intro hn
    by_cases hgate : ctx.dateCol.isSome ∧ (ctx.inCol.isSome ∨ ctx.outCol.isSome ∨
        ctx.lunchSCol.isSome ∨ ctx.lunchECol.isSome ∨ ctx.timeInCols ≠ [] ∨
        ctx.timeOutCols ≠ [])
    · simp only [rowShifts]
      rw [if_pos hgate, if_neg hn]
      by_cases hl : ctx.lunchSCol.isSome ∧ ctx.lunchECol.isSome
      · rw [if_pos hl]
        by_cases hc : (rowDateVal fz today ctx r).isSome ∧
            ((colTimeOpt fz r ctx.inCol).isSome ∨ (colTimeOpt fz r ctx.outCol).isSome)
        · rw [if_pos hc]
          simp only [Option.isSome_iff_ne_none] at hc
          exact iff_of_true (by simp) hc
        · rw [if_neg hc]
          simp only [Option.isSome_iff_ne_none] at hc
          exact iff_of_false (by simp) hc
      · rw [if_neg hl]
        by_cases hc : (rowDateVal fz today ctx r).isSome ∧
            ((colTimeOpt fz r ctx.inCol).isSome ∨ (colTimeOpt fz r ctx.outCol).isSome)
        · rw [if_pos hc]
          simp only [Option.isSome_iff_ne_none] at hc
          exact iff_of_true (by simp) hc
        · rw [if_neg hc]
          simp only [Option.isSome_iff_ne_none] at hc
          exact iff_of_false (by simp) hc
    · simp only [rowShifts]
      rw [if_neg hgate]
      constructor
      · intro hne
        exact absurd rfl hne
      · rintro ⟨hdne, hor⟩
        refine absurd ⟨dateCol_isSome_of_dateVal hdne, ?_⟩ hgate
        rcases hor with h1 | h2
        · exact Or.inl (inCol_isSome_of_colTime h1)
        · exact Or.inr (Or.inl (inCol_isSome_of_colTime h2))
  · intro d t hn hl hd h1 h2
    have hgate : ctx.dateCol.isSome ∧ (ctx.inCol.isSome ∨ ctx.outCol.isSome ∨
        ctx.lunchSCol.isSome ∨ ctx.lunchECol.isSome ∨ ctx.timeInCols ≠ [] ∨
        ctx.timeOutCols ≠ []) :=
      ⟨dateCol_isSome_of_dateVal (show rowDateVal fz today ctx r ≠ none by simp [hd]),
       Or.inl (inCol_isSome_of_colTime
         (show colTimeOpt fz r ctx.inCol ≠ none by simp [h1]))⟩
    constructor
    · simp only [rowShifts]
      rw [if_pos hgate, if_neg hn, if_neg hl,
        if_pos ⟨by simp [hd], Or.inl (by simp [h1])⟩, hd, h1, h2]
    · simp [missingCoreB]
  · intro tbl i h hm
    have he : (extract_from_csv_xlsx fz today path tbl).needs_review_fields =
        needsReviewOf ((extract_from_csv_xlsx fz today path tbl).shifts) := rfl
    rw [he]
    unfold needsReviewOf
    rw [needsReviewGo_mem_iff]
    exact ⟨i, h, hm, by simp⟩

/-- The one-row multi-period table of the C3 counterexample. -/
def c3tbl : Table :=
  ⟨["name", "date", "time in", "time out"],
   [[("name", CellV.strV "Alice"), ("date", CellV.dateV 2025 1 6),
     ("time in", CellV.strV "0930"), ("time out", CellV.strV "")]]⟩

/-- The row of the C3 counterexample table. -/
def c3row : Row :=
  [("name", CellV.strV "Alice"), ("date", CellV.dateV 2025 1 6),
   ("time in", CellV.strV "0930"), ("time out", CellV.strV "")]

/-- Counterexample to C3 as stated: in this table the row's date value parses
    and its clock-in value parses, yet no shift record is emitted, because the
    multi-period branch requires both members of the period to parse and the
    clock-out cell is blank. -/
theorem C3_counterexample :
    (extract_from_csv_xlsx fuzzNone 700000 "f.csv" c3tbl).shifts = [] ∧
    rowDateVal fuzzNone 700000 (detectCtx ["name", "date", "time in", "time out"]) c3row =
      some (gregOrd 2025 1 6) ∧
    infer_time fuzzNone (cellStrOfGet (rowGet c3row "time in")) = some ⟨9, 30, 0⟩ :=
  ⟨by decide, by decide, by decide⟩

/-- The one-row standard-branch table of the C3 witness. -/
def c3stdrow : Row :=
  [("name", CellV.strV "Bob"), ("date", CellV.dateV 2025 1 6),
   ("clock in", CellV.strV "0930"), ("clock out", CellV.strV "")]

/-- Witness for C3 as amended: the standard-branch row with a blank clock-out
    still yields its one shift record, with an absent end time. -/
theorem C3_amended_witness :
    rowShifts fuzzNone 700000 "f.csv" ["name", "date", "clock in", "clock out"]
      (detectCtx ["name", "date", "clock in", "clock out"]) "Bob" 0 c3stdrow =
      [⟨some "Bob", none, some (gregOrd 2025 1 6), some ⟨9, 30, 0⟩, none, none, none, none,
        some ⟨"csv", "row=0", some "Bob 2025-01-06 0930 "⟩, 7 / 10⟩] := by
  have h := (C3_amended fuzzNone 700000 "f.csv" ["name", "date", "clock in", "clock out"]
    (detectCtx ["name", "date", "clock in", "clock out"]) "Bob" 0 c3stdrow).2.2.1
    (gregOrd 2025 1 6) ⟨9, 30, 0⟩ (by decide) (by decide) (by decide) (by decide) (by decide)
  exact h.1.trans (by decide)

end RowThms

theorem lookupM_nil (n : String) : lookupM [] n = none := rfl

theorem lookupM_upd (m : List (String × Nat)) (k : String) (v : Nat) (n : String) :
    lookupM (updM m k v) n = if n = k then some v else lookupM m n := by
  unfold lookupM updM
  by_cases h : n = k
  · rw [if_pos h]
    simp [List.find?_cons, h]
  · rw [if_neg h]
    have : ((k, v).1 == n) = false := by
      simp [Ne.symm h]
    simp [List.find?_cons, this]

theorem existing0_fold_isSome (l : List EmployeeRow) :
    ∀ (m0 : List (String × Nat)) (n : String),
      (lookupM (l.foldl (fun m r => updM m r.name r.id) m0) n).isSome ↔
        (lookupM m0 n).isSome ∨ n ∈ l.map EmployeeRow.name := by
  induction l with
  | nil =>
    intro m0 n
    simp
  | cons r rest ih =>
    intro m0 n
    rw [List.foldl_cons, ih]
    rw [lookupM_upd]
    by_cases h : n = r.name
    · simp [h]
    · simp [h]

theorem dbSelect_name_mem {db : List EmployeeRow} {names : List String} {n : String} :
    n ∈ (dbSelect db names).map EmployeeRow.name ↔
      ∃ row ∈ db, row.org_id = 1 ∧ row.name = n ∧ n ∈ names := by
  unfold dbSelect
  constructor
  · intro h
    obtain ⟨row, hrow, hname⟩ := List.mem_map.mp h
    obtain ⟨hmem, hp⟩ := List.mem_filter.mp hrow
    simp only [Bool.and_eq_true, beq_iff_eq] at hp
    exact ⟨row, hmem, hp.1, hname, hname ▸ containsIff.mp hp.2⟩
  · intro ⟨row, hmem, horg, hname, hn⟩
    refine List.mem_map.mpr ⟨row, List.mem_filter.mpr ⟨hmem, ?_⟩, hname⟩
    simp only [Bool.and_eq_true, beq_iff_eq]
    exact ⟨horg, containsIff.mpr (hname ▸ hn)⟩

theorem existing0_isSome {db : List EmployeeRow} {names : List String} {n : String} :
    (lookupM (existing0 db names) n).isSome ↔
      ∃ row ∈ db, row.org_id = 1 ∧ row.name = n ∧ n ∈ names := by
  unfold existing0
  rw [existing0_fold_isSome]
  constructor
  · intro h
    rcases h with h | h
    · exact absurd h (by simp [lookupM_nil])
    · exact dbSelect_name_mem.mp h
  · intro h
    exact Or.inr (dbSelect_name_mem.mpr h)

theorem confirmNames_mem_of {payload : ConfirmPayload} {e : EmployeeInput}
    (he : e ∈ payload.employees) (hne : pyStrip e.name ≠ "") :
    pyStrip e.name ∈ confirmNames payload := by
  unfold confirmNames
  exact List.mem_filterMap.mpr ⟨e, he, by simp [hne]⟩

theorem confirmNames_sub {payload : ConfirmPayload} {n : String}
    (h : n ∈ confirmNames payload) :
    n ∈ payload.employees.map (fun e => pyStrip e.name) := by
  unfold confirmNames at h
  obtain ⟨e, he, hn⟩ := List.mem_filterMap.mp h
  by_cases hc : pyStrip e.name = ""
  · rw [if_pos hc] at hn
    exact absurd hn (by simp)
  · rw [if_neg hc] at hn
    exact List.mem_map.mpr ⟨e, he, Option.some_injective _ hn⟩

/-- The invariant of the employee-insertion loop, relative to the initial
    name map ex0. -/
def EmpInv (ex0 : List (String × Nat)) (st : EmpSt) : Prop :=
  st.inserted = st.rows.length ∧
  (st.rows.map EmployeeRow.name).Nodup ∧
  (∀ n, (lookupM st.map n).isSome ↔
    (lookupM ex0 n).isSome ∨ n ∈ st.rows.map EmployeeRow.name) ∧
  (∀ n ∈ st.rows.map EmployeeRow.name, ¬(lookupM ex0 n).isSome ∧ n ≠ "")

theorem empStep_inv {ex0 : List (String × Nat)} {st : EmpSt} (e : EmployeeInput)
    (h : EmpInv ex0 st) : EmpInv ex0 (empStep st e) := by
  obtain ⟨h1, h2, h3, h4⟩ := h
  unfold empStep
  by_cases hc : pyStrip e.name ≠ "" ∧ lookupM st.map (pyStrip e.name) = none
  · rw [if_pos hc]
    have hnotmem : pyStrip e.name ∉ st.rows.map EmployeeRow.name := by
      intro hmem
      have := (h3 (pyStrip e.name)).mpr (Or.inr hmem)
      rw [hc.2] at this
      exact absurd this (by simp)
    have hnotex : ¬(lookupM ex0 (pyStrip e.name)).isSome := by
      intro hex
      have := (h3 (pyStrip e.name)).mpr (Or.inl hex)
      rw [hc.2] at this
      exact absurd this (by simp)
    refine ⟨by simp [h1], ?_, ?_, ?_⟩
    · rw [List.map_append]
      simp only [List.map_cons, List.map_nil]
      exact List.nodup_append.mpr ⟨h2, List.nodup_singleton _,
        by simpa [List.disjoint_right] using fun hx => hnotmem hx⟩
    · intro n
      rw [lookupM_upd]
      by_cases hn : n = pyStrip e.name
      · subst hn
        simp [hnotmem, hnotex]
      · rw [if_neg hn, h3 n]
        simp only [List.map_append, List.map_cons, List.map_nil, List.mem_append,
          List.mem_singleton]
        constructor
        · intro hx
          rcases hx with hx | hx
          · exact Or.inl hx
          · exact Or.inr (Or.inl hx)
        · intro hx
          rcases hx with hx | hx | hx
          · exact Or.inl hx
          · exact Or.inr hx
          · exact absurd hx hn
    · intro n hn
      rw [List.map_append] at hn
      simp only [List.map_cons, List.map_nil, List.mem_append, List.mem_singleton] at hn
      rcases hn with hn | hn
      · exact h4 n hn
      · subst hn
        exact ⟨hnotex, hc.1⟩
  · rw [if_neg hc]
    exact ⟨h1, h2, h3, h4⟩

theorem empFold_inv {ex0 : List (String × Nat)} (l : List EmployeeInput) :
    ∀ (st : EmpSt), EmpInv ex0 st → EmpInv ex0 (l.foldl empStep st) := by
  induction l with
  | nil => intro st h; exact h
  | cons e rest ih =>
    intro st h
    rw [List.foldl_cons]
    exact ih _ (empStep_inv e h)

theorem empFold_rows_mem (l : List EmployeeInput) :
    ∀ (st : EmpSt) (n : String), n ∈ st.rows.map EmployeeRow.name →
      n ∈ (l.foldl empStep st).rows.map EmployeeRow.name := by
  induction l with
  | nil => intro st n h; exact h
  | cons e rest ih =>
    intro st n h
    rw [List.foldl_cons]
    refine ih (empStep st e) n ?_
    unfold empStep
    by_cases hc : pyStrip e.name ≠ "" ∧ lookupM st.map (pyStrip e.name) = none
    · rw [if_pos hc, List.map_append]
      exact List.mem_append.mpr (Or.inl h)
    · rw [if_neg hc]
      exact h

theorem empFold_complete {ex0 : List (String × Nat)} (l : List EmployeeInput) :
    ∀ (st : EmpSt) (e : EmployeeInput), EmpInv ex0 st → e ∈ l → pyStrip e.name ≠ "" →
      ¬(lookupM ex0 (pyStrip e.name)).isSome →
      pyStrip e.name ∈ (l.foldl empStep st).rows.map EmployeeRow.name := by
  induction l with
  | nil => intro st e _ he; exact absurd he (by simp)
  | cons hd rest ih =>
    intro st e hinv he hne hnex
    rw [List.foldl_cons]
    rcases List.mem_cons.mp he with he | he
    · subst he
      rcases hlk : lookupM st.map (pyStrip e.name) with _ | v
      · have hmem : pyStrip e.name ∈ (empStep st e).rows.map EmployeeRow.name := by
          unfold empStep
          rw [if_pos ⟨hne, hlk⟩]
          simp
        exact empFold_rows_mem rest (empStep st e) _ hmem
      · have hsome : (lookupM st.map (pyStrip e.name)).isSome := by simp [hlk]
        have hmem : pyStrip e.name ∈ st.rows.map EmployeeRow.name := by
          rcases (hinv.2.2.1 (pyStrip e.name)).mp hsome with hx2 | hx2
          · exact absurd hx2 hnex
          · exact hx2
        have hmem2 : pyStrip e.name ∈ (empStep st e).rows.map EmployeeRow.name := by
          unfold empStep
          by_cases hc : pyStrip e.name ≠ "" ∧ lookupM st.map (pyStrip e.name) = none
          · rw [if_pos hc, List.map_append]
            exact List.mem_append.mpr (Or.inl hmem)
          · rw [if_neg hc]
            exact hmem
        exact empFold_rows_mem rest (empStep st e) _ hmem2
    · exact ih (empStep st hd) e (empStep_inv hd hinv) he hne hnex

theorem empFold_keys_sub (l : List EmployeeInput) :
    ∀ (st : EmpSt) (n : String), (lookupM (l.foldl empStep st).map n).isSome →
      (lookupM st.map n).isSome ∨ n ∈ l.map (fun e => pyStrip e.name) := by
  induction l with
  | nil => intro st n h; exact Or.inl h
  | cons e rest ih =>
    intro st n h
    rw [List.foldl_cons] at h
    rcases ih (empStep st e) n h with hx | hx
    · unfold empStep at hx
      by_cases hc : pyStrip e.name ≠ "" ∧ lookupM st.map (pyStrip e.name) = none
      · rw [if_pos hc] at hx
        rw [lookupM_upd] at hx
        by_cases hn : n = pyStrip e.name
        · exact Or.inr (by simp [hn])
        · rw [if_neg hn] at hx
          exact Or.inl hx
      · rw [if_neg hc] at hx
        exact Or.inl hx
    · exact Or.inr (List.mem_cons_of_mem _ hx)

/-- Claim C2: in the confirm workflow an employee input whose trimmed name is
    already stored for the organization creates no new row; every trimmed
    non-empty name not stored yet creates exactly one row even when repeated
    in the payload; employees_created equals the number of rows inserted; and
    one shift row is inserted per shift input, which shifts_created counts. -/
theorem C2_confirm_dedup (db : List EmployeeRow) (nextId uploadId : Nat)
    (payload : ConfirmPayload) :
    ((confirm_extraction db nextId uploadId payload).employees_created =
      (confirm_extraction db nextId uploadId payload).newEmployeeRows.length) ∧
    (∀ e ∈ payload.employees, pyStrip e.name ≠ "" →
      (∃ row ∈ db, row.org_id = 1 ∧ row.name = pyStrip e.name) →
      pyStrip e.name ∉
        (confirm_extraction db nextId uploadId payload).newEmployeeRows.map
          EmployeeRow.name) ∧
    (∀ e ∈ payload.employees, pyStrip e.name ≠ "" →
      ¬(∃ row ∈ db, row.org_id = 1 ∧ row.name = pyStrip e.name) →
      ((confirm_extraction db nextId uploadId payload).newEmployeeRows.map
        EmployeeRow.name).count (pyStrip e.name) = 1) ∧
    ((confirm_extraction db nextId uploadId payload).shifts_created =
      payload.shifts.length ∧
     (confirm_extraction db nextId uploadId payload).shiftRows.length =
      payload.shifts.length) := by
  have hinv0 : EmpInv (existing0 db (confirmNames payload))
      ⟨existing0 db (confirmNames payload), [], 0, nextId⟩ := by
    refine ⟨rfl, by simp, ?_, by simp⟩
    intro n
    simp
  have hinv := empFold_inv payload.employees _ hinv0
  have hrows : (confirm_extraction db nextId uploadId payload).newEmployeeRows =
      (payload.employees.foldl empStep
        ⟨existing0 db (confirmNames payload), [], 0, nextId⟩).rows := rfl
  have hcreated : (confirm_extraction db nextId uploadId payload).employees_created =
      (payload.employees.foldl empStep
        ⟨existing0 db (confirmNames payload), [], 0, nextId⟩).inserted := rfl
  refine ⟨?_, ?_, ?_, ?_, ?_⟩
  · rw [hcreated, hrows]
    exact hinv.1
  · intro e he hne hdb
    obtain ⟨row, hrow, horg, hnm⟩ := hdb
    have hex : (lookupM (existing0 db (confirmNames payload)) (pyStrip e.name)).isSome :=
      existing0_isSome.mpr ⟨row, hrow, horg, hnm, confirmNames_mem_of he hne⟩
    rw [hrows]
    intro hmem
    exact (hinv.2.2.2 _ hmem).1 hex
  · intro e he hne hdb
    have hnex : ¬(lookupM (existing0 db (confirmNames payload)) (pyStrip e.name)).isSome := by
      intro hx
      obtain ⟨row, hrow, horg, hnm, _⟩ := existing0_isSome.mp hx
      exact hdb ⟨row, hrow, horg, hnm⟩
    have hmem := empFold_complete payload.employees _ e hinv0 he hne hnex
    rw [hrows]
    exact List.count_eq_one_of_mem hinv.2.1 hmem
  · exact List.length_map _ _
  · exact List.length_map _ _

/-- Witness for C2: Alice already exists, Bob is new and repeated. -/
def c2db : List EmployeeRow := [⟨5, 1, "Alice", none, none, none, none, none, none⟩]

/-- Witness payload for C2: an existing name, a new name repeated (once with
    surrounding blanks), and one shift. -/
def c2payload : ConfirmPayload :=
  ⟨[⟨"Alice", none, none, none, none, none, none⟩,
    ⟨"Bob", none, none, none, none, none, none⟩,
    ⟨" Bob ", none, none, none, none, none, none⟩],
   [⟨"Bob", none, 700000, ⟨9, 0, 0⟩, ⟨17, 0, 0⟩, none, none, none⟩]⟩

theorem C2_confirm_dedup_witness :
    "Alice" ∉ (confirm_extraction c2db 10 1 c2payload).newEmployeeRows.map
      EmployeeRow.name ∧
    ((confirm_extraction c2db 10 1 c2payload).newEmployeeRows.map
      EmployeeRow.name).count "Bob" = 1 ∧
    (confirm_extraction c2db 10 1 c2payload).employees_created =
      (confirm_extraction c2db 10 1 c2payload).newEmployeeRows.length ∧
    (confirm_extraction c2db 10 1 c2payload).shifts_created = 1 := by
  have h := C2_confirm_dedup c2db 10 1 c2payload
  refine ⟨?_, ?_, h.1, h.2.2.2.1⟩
  · have h2 := h.2.1 ⟨"Alice", none, none, none, none, none, none⟩ (by decide) (by decide)
      ⟨⟨5, 1, "Alice", none, none, none, none, none, none⟩, by decide, by decide, by decide⟩
    exact (show pyStrip "Alice" = "Alice" from rfl) ▸ h2
  · have h2 := h.2.2.1 ⟨"Bob", none, none, none, none, none, none⟩ (by decide) (by decide)
      (by
        rintro ⟨row, hrow, horg, hnm⟩
        have : row = ⟨5, 1, "Alice", none, none, none, none, none, none⟩ := by
          rcases List.mem_singleton.mp hrow with h'
          exact h'
        rw [this] at hnm
        exact absurd hnm (by decide))
    exact (show pyStrip "Bob" = "Bob" from rfl) ▸ h2

/-- Claim C9: shift employee resolution consults only the map built from the
    payload's employees list, so a shift whose trimmed employee name does not
    occur among the payload's trimmed employee names gets a null employee
    reference, even when the organization already stores that name. -/
theorem C9_shift_employee_resolution (db : List EmployeeRow) (nextId uploadId : Nat)
    (payload : ConfirmPayload) (i : Nat) (s : ShiftInput)
    (hs : payload.shifts.get? i = some s)
    (hname : pyStrip s.employee_name ∉ payload.employees.map (fun e => pyStrip e.name)) :
    ∃ row, (confirm_extraction db nextId uploadId payload).shiftRows.get? i = some row ∧
      row.employee_id = none := by
  have hmap : (confirm_extraction db nextId uploadId payload).shiftRows =
      payload.shifts.map (fun s =>
        (⟨1,
          (if s.employee_name ≠ "" then
            lookupM (payload.employees.foldl empStep
              ⟨existing0 db (confirmNames payload), [], 0, nextId⟩).map
              (pyStrip s.employee_name)
          else none),
          s.role, s.date, s.start_time, s.end_time, s.unpaid_break_min,
          s.status⟩ : ShiftRow)) := rfl
  rw [hmap, List.get?_map, hs]
  refine ⟨_, rfl, ?_⟩
  show (if s.employee_name ≠ "" then
      lookupM (payload.employees.foldl empStep
        ⟨existing0 db (confirmNames payload), [], 0, nextId⟩).map
        (pyStrip s.employee_name)
    else none) = none
  by_cases hni : s.employee_name ≠ ""
  · rw [if_pos hni]
    apply Option.not_isSome_iff_eq_none.mp
    intro hsome
    rcases empFold_keys_sub payload.employees _ _ hsome with hx | hx
    · obtain ⟨row, hrow, horg, hnm, hmemn⟩ := existing0_isSome.mp hx
      exact hname (confirmNames_sub hmemn)
    · exact hname hx
  · rw [if_neg hni]

/-- Witness database and payload for C9: the organization already stores Bob,
    but the payload's employees list does not mention him. -/
def c9db : List EmployeeRow := [⟨5, 1, "Bob", none, none, none, none, none, none⟩]

def c9payload : ConfirmPayload :=
  ⟨[], [⟨"Bob", none, 700000, ⟨9, 0, 0⟩, ⟨17, 0, 0⟩, none, none, none⟩]⟩

theorem C9_shift_employee_resolution_witness :
    (confirm_extraction c9db 10 1 c9payload).shiftRows.get? 0 =
      some ⟨1, none, none, 700000, ⟨9, 0, 0⟩, ⟨17, 0, 0⟩, none, none⟩ ∧
    (⟨1, none, none, 700000, ⟨9, 0, 0⟩, ⟨17, 0, 0⟩, none, none⟩ : ShiftRow).employee_id =
      none := by
  obtain ⟨row, hr, hid⟩ := C9_shift_employee_resolution c9db 10 1 c9payload 0
    ⟨"Bob", none, 700000, ⟨9, 0, 0⟩, ⟨17, 0, 0⟩, none, none, none⟩ rfl (by simp [c9payload])
  exact ⟨by decide, rfl⟩
